import Mathlib

/-!
Verification development for the virgil-cli source-code fact extractor.

The Rust sources are embedded shallowly:

* Rust `&str` values are modelled as `List Char` (`Str`).  All positions are
  character positions; this coincides with Rust's byte positions on ASCII
  data, and every concrete input considered here is ASCII.
* Rust standard-library string operations (`trim`, `split`, `split_once`,
  `find`, `rfind`, `trim_start_matches`, `trim_end_matches`, ...) are given
  executable Lean counterparts with the same semantics.
* tree-sitter trees are modelled as finite node trees carrying the node
  kind, named flag, UTF-8 text and start row; query matches are modelled as
  the list of per-pattern captures the extraction loops iterate over.
* Fallible steps (`anyhow::Result`) are modelled with `Except`; a Rust
  panic is modelled as `Option.none`.
-/

namespace Virgil

/-- Rust `&str`, modelled as a list of characters. -/
abbrev Str := List Char

/-- ASCII fragment of Rust `char::is_whitespace` (Unicode White_Space);
all inputs considered in this development are ASCII. -/
def isWS (c : Char) : Bool :=
  c = ' ' || c = '\t' || c = '\n' || c = '\r' || c = '\x0b' || c = '\x0c'

/-- Rust `str::trim_start`. -/
def trimStart (s : Str) : Str := s.dropWhile isWS

/-- Rust `str::trim_end`. -/
def trimEnd (s : Str) : Str := (s.reverse.dropWhile isWS).reverse

/-- Rust `str::trim`. -/
def rsTrim (s : Str) : Str := trimEnd (trimStart s)

/-- Rust `str::starts_with(c)` for a single char pattern. -/
def startsWithChar (c : Char) : Str → Bool
  | [] => false
  | x :: _ => x = c

/-- Rust `str::ends_with(c)` for a single char pattern. -/
def endsWithChar (c : Char) (s : Str) : Bool :=
  match s.getLast? with
  | some x => x = c
  | none => false

/-- Rust `str::find(c)`: index of the first occurrence of a character. -/
def findIdxChar (c : Char) : Str → Option Nat
  | [] => none
  | x :: xs => if x = c then some 0 else (findIdxChar c xs).map (· + 1)

/-- Rust `str::rfind(c)`: index of the last occurrence of a character. -/
def rfindIdxChar (c : Char) (s : Str) : Option Nat :=
  (findIdxChar c s.reverse).map (fun i => s.length - 1 - i)

/-- Rust `str::split(c)` on a single-char separator (always at least one
piece; an empty string yields one empty piece). -/
def splitOnChar (sep : Char) : Str → List Str
  | [] => [[]]
  | c :: cs =>
    match splitOnChar sep cs with
    | [] => [[]]
    | p :: ps => if c = sep then [] :: p :: ps else (c :: p) :: ps

/-- Rust `str::split_once(pat)` for a string pattern: splits at the first
occurrence, returning the parts before and after it. -/
def splitOnceStr (sep : Str) : Str → Option (Str × Str)
  | [] => none
  | c :: cs =>
    if sep.isPrefixOf (c :: cs) then some ([], (c :: cs).drop sep.length)
    else (splitOnceStr sep cs).map (fun p => (c :: p.1, p.2))

/-- The suffix that remains after the first occurrence of `sep` (the
occurrence itself removed), or `none` when `sep` does not occur. -/
def dropAfterFirst (sep : Str) : Str → Option Str
  | [] => none
  | c :: cs =>
    if sep.isPrefixOf (c :: cs) then some ((c :: cs).drop sep.length)
    else dropAfterFirst sep cs

/-- Termination measure fact for `splitLastStr`: the remainder is a suffix. -/
def dropAfterFirst_suffix {sep l r : Str} (h : dropAfterFirst sep l = some r) :
    r <:+ l := by
  induction l with
  | nil => simp [dropAfterFirst] at h
  | cons c cs ih =>
    simp only [dropAfterFirst] at h
    split at h
    · cases h
      exact List.drop_suffix _ _
    · exact (ih h).trans (List.suffix_cons c cs)

/-- The recursion of `splitLastStr`, driven by a fuel counter that dominates
the number of removed occurrences (each removal shortens the string). -/
def splitLastA (sep : Str) : Nat → Str → Str
  | 0, s => s
  | fuel + 1, s =>
    if sep.isEmpty then s
    else
      match dropAfterFirst sep s with
      | none => s
      | some r => splitLastA sep fuel r

/-- The last piece of Rust `str::split(pat)` for a nonempty string pattern:
`s.split(sep).last().unwrap_or(s)`. -/
def splitLastStr (sep : Str) (s : Str) : Str :=
  splitLastA sep s.length s

/-- The recursion of `trimStartMatchesL`, fuel-driven (each removal strips
at least one character). -/
def trimStartMatchesA (pat : Str) : Nat → Str → Str
  | 0, s => s
  | fuel + 1, s =>
    if !pat.isEmpty && pat.isPrefixOf s then trimStartMatchesA pat fuel (s.drop pat.length)
    else s

/-- Rust `str::trim_start_matches(pat)`: repeatedly removes the prefix. -/
def trimStartMatchesL (pat : Str) (s : Str) : Str :=
  trimStartMatchesA pat s.length s

/-- The recursion of `trimEndMatchesL`, fuel-driven. -/
def trimEndMatchesA (pat : Str) : Nat → Str → Str
  | 0, s => s
  | fuel + 1, s =>
    if !pat.isEmpty && pat.isSuffixOf s then
      trimEndMatchesA pat fuel (s.take (s.length - pat.length))
    else s

/-- Rust `str::trim_end_matches(pat)`: repeatedly removes the suffix. -/
def trimEndMatchesL (pat : Str) (s : Str) : Str :=
  trimEndMatchesA pat s.length s

/-- SQL `LIKE '%needle%'`: substring containment (no wildcard characters in
any needle considered here). -/
def containsSub (n : Str) : Str → Bool
  | [] => n.isEmpty
  | c :: cs => n.isPrefixOf (c :: cs) || containsSub n cs

/-- Character-code lexicographic strict order on strings (SQL binary
collation for `ORDER BY` on text columns). -/
def strLt : Str → Str → Bool
  | [], [] => false
  | [], _ :: _ => true
  | _ :: _, [] => false
  | a :: as, b :: bs => if a < b then true else if b < a then false else strLt as bs

/-- Insert into a sorted list (used to model SQL `ORDER BY`). -/
def insertSorted (le : α → α → Bool) (a : α) : List α → List α
  | [] => [a]
  | b :: bs => if le a b then a :: b :: bs else b :: insertSorted le a bs

/-- Insertion sort, modelling SQL `ORDER BY` (any order of key-ties is a
faithful model, since SQL leaves tie order unspecified). -/
def sortByLe (le : α → α → Bool) : List α → List α
  | [] => []
  | a :: as => insertSorted le a (sortByLe le as)

/-! ## Data model (`src/models.rs`)

`SymbolKind` is stored as its display string, so the record fields below
carry the rendered string for `kind` exactly as the columnar tables do. -/

/-- One row of the imports table (`src/models.rs`, `struct ImportInfo`). -/
structure ImportInfo where
  source_file : Str
  module_specifier : Str
  imported_name : Str
  local_name : Str
  kind : Str
  is_type_only : Bool
  line : Nat
  is_external : Bool
deriving DecidableEq

/-- Model of `ImportInfo::is_external_specifier` (`src/models.rs`): internal iff the
specifier starts with `.` or `#`. -/
def ImportInfo.is_external_specifier (module_specifier : Str) : Bool :=
  !(startsWithChar '.' module_specifier || startsWithChar '#' module_specifier)

/-- One row of the files table (`src/models.rs`, `struct FileMetadata`). -/
structure FileMetadata where
  path : Str
  name : Str
  extension : Str
  language : Str
  size_bytes : Nat
  line_count : Nat
deriving DecidableEq

/-- One row of the symbols table (`src/models.rs`, `struct SymbolInfo`;
`kind` carries the display string of `SymbolKind`). -/
structure SymbolInfo where
  name : Str
  kind : Str
  file_path : Str
  start_line : Nat
  start_column : Nat
  end_line : Nat
  end_column : Nat
  is_exported : Bool
deriving DecidableEq

/-- One row of the comments table (`src/models.rs`, `struct CommentInfo`). -/
structure CommentInfo where
  file_path : Str
  text : Str
  kind : Str
  start_line : Nat
  start_column : Nat
  end_line : Nat
  end_column : Nat
  associated_symbol : Option Str
  associated_symbol_kind : Option Str
deriving DecidableEq

/-- One row of the errors table (`struct ParseError`, declared in the models
module and constructed in `src/main.rs`). -/
structure ParseError where
  file_path : Str
  file_name : Str
  extension : Str
  language : Str
  error_type : Str
  error_message : Str
  size_bytes : Nat
deriving DecidableEq

/-! ## C / C++ extractor (`src/languages/c_lang.rs`)

The import query `(preproc_include path: (_) @path) @include` yields one
match per include directive; a match is modelled by the kind and text of the
`@path` capture plus the start row of the `@include` capture. -/

namespace CLang

/-- Model of `strip_include_path` (`src/languages/c_lang.rs`): trim, then strip one
pair of surrounding angle brackets or double quotes. -/
def strip_include_path (s : Str) : Str :=
  let s := rsTrim s
  if startsWithChar '<' s && endsWithChar '>' s then (s.drop 1).dropLast
  else if startsWithChar '"' s && endsWithChar '"' s then (s.drop 1).dropLast
  else s

/-- One match of the C/C++ import query: the tree-sitter node kind of the
`@path` capture (`system_lib_string` for `<...>`, `string_literal` for
`"..."`), its raw text, and the directive's start row. -/
structure CIncludeMatch where
  pathKind : Str
  rawPath : Str
  line : Nat
deriving DecidableEq

/-- Model of `extract_imports` (`src/languages/c_lang.rs`): one row per include
match with nonempty path text. -/
def extract_imports (ms : List CIncludeMatch) (file_path : Str) : List ImportInfo :=
  ms.filterMap fun m =>
    if m.rawPath = [] then none
    else some
      { source_file := file_path
        module_specifier := strip_include_path m.rawPath
        imported_name := "*".data
        local_name := "*".data
        kind := "include".data
        is_type_only := false
        line := m.line
        is_external := decide (m.pathKind = "system_lib_string".data) }

/-- Model of `classify_comment` (`src/languages/c_lang.rs`, also `cpp.rs`): only
`/**` and `///` count as doc delimiters. -/
def classify_comment (text : Str) : Str :=
  let trimmed := trimStart text
  if ("/**".data.isPrefixOf trimmed || "///".data.isPrefixOf trimmed) then "doc".data
  else if ("/*".data.isPrefixOf trimmed) then "block".data
  else "line".data

end CLang

/-! ## Rust extractor (`src/languages/rust_lang.rs`)

The import query `(use_declaration argument: (_) @path) @import` yields one
match per `use` declaration; a match is modelled by the `@path` capture's
text and the declaration's start row. -/

namespace RustLang

/-- Model of `classify_comment` (`src/languages/rust_lang.rs`): all four of `///`,
`//!`, `/**`, `/*!` are doc delimiters. -/
def classify_comment (text : Str) : Str :=
  let trimmed := trimStart text
  if ("///".data.isPrefixOf trimmed || "//!".data.isPrefixOf trimmed) then "doc".data
  else if ("/**".data.isPrefixOf trimmed || "/*!".data.isPrefixOf trimmed) then "doc".data
  else if ("/*".data.isPrefixOf trimmed) then "block".data
  else "line".data

/-- Model of `extract_use_imports` (`src/languages/rust_lang.rs`): expand one `use`
path into import rows.  `\x7b`/`\x7d` are the brace characters. -/
def extract_use_imports (path_text : Str) (file_path : Str) (line : Nat) :
    List ImportInfo :=
  let is_internal := ("crate::".data.isPrefixOf path_text)
    || ("self::".data.isPrefixOf path_text)
    || ("super::".data.isPrefixOf path_text)
  match findIdxChar '\x7b' path_text with
  | some brace_start =>
    let pre := path_text.take brace_start
    let brace_end := (rfindIdxChar '\x7d' path_text).getD path_text.length
    let inner := (path_text.take brace_end).drop (brace_start + 1)
    (splitOnChar ',' inner).filterMap fun item0 =>
      let item := rsTrim item0
      if item = [] then none
      else
        let names :=
          match splitOnceStr " as ".data item with
          | some (n, a) => (rsTrim n, rsTrim a)
          | none =>
            let n := rsTrim (splitLastStr "::".data item)
            (n, n)
        some
          { source_file := file_path
            module_specifier := rsTrim (pre ++ item)
            imported_name := names.1
            local_name := names.2
            kind := "use".data
            is_type_only := false
            line := line
            is_external := !is_internal }
  | none =>
    let parts :=
      match splitOnceStr " as ".data path_text with
      | some (p, a) => (rsTrim p, rsTrim (splitLastStr "::".data p), rsTrim a)
      | none =>
        if ("::*".data.isSuffixOf path_text) then (path_text, "*".data, "*".data)
        else
          let n := rsTrim (splitLastStr "::".data path_text)
          (path_text, n, n)
    [{ source_file := file_path
       module_specifier := parts.1
       imported_name := parts.2.1
       local_name := parts.2.2
       kind := "use".data
       is_type_only := false
       line := line
       is_external := !is_internal }]

/-- One match of the Rust import query: the `@path` capture's text and the
`@import` capture's start row. -/
structure RustUseMatch where
  pathText : Str
  line : Nat
deriving DecidableEq

/-- Model of `extract_imports` (`src/languages/rust_lang.rs`): skip empty path text,
then expand each `use` declaration. -/
def extract_imports (ms : List RustUseMatch) (file_path : Str) : List ImportInfo :=
  ms.flatMap fun m =>
    if m.pathText = [] then [] else extract_use_imports m.pathText file_path m.line

end RustLang

/-! ## TypeScript / JavaScript extractor (`src/languages/typescript.rs`)

tree-sitter nodes are modelled with their kind, named flag, UTF-8 text and
start row.  The import query has four disjoint patterns; a match is
modelled by which pattern fired together with the captures each branch of
`extract_imports` reads. -/

namespace Ts

/-- A tree-sitter syntax node: kind, named flag, UTF-8 text, start row,
children (named and anonymous, in order). -/
inductive Node where
  | node (kind : Str) (isNamed : Bool) (text : Str) (row : Nat) (children : List Node)

def Node.kind : Node → Str
  | .node k _ _ _ _ => k

def Node.isNamed : Node → Bool
  | .node _ n _ _ _ => n

def Node.text : Node → Str
  | .node _ _ t _ _ => t

def Node.row : Node → Nat
  | .node _ _ _ r _ => r

def Node.children : Node → List Node
  | .node _ _ _ _ c => c

/-- Model of `strip_quotes` (`src/languages/typescript.rs`): trim, then strip one
pair of matching double quotes, single quotes, or backquotes. -/
def strip_quotes (s : Str) : Str :=
  let s := rsTrim s
  let backquote : Char := Char.ofNat 96
  if (startsWithChar '"' s && endsWithChar '"' s)
      || (startsWithChar '\'' s && endsWithChar '\'' s)
      || (startsWithChar backquote s && endsWithChar backquote s) then
    (s.drop 1).dropLast
  else s

/-- Model of `has_type_keyword`: an anonymous `type` child marks a type-only
directive. -/
def has_type_keyword (n : Node) : Bool :=
  n.children.any fun c => decide (c.kind = "type".data) && !c.isNamed

/-- Model of `extract_import_specifier`: collect identifier texts among the
children; `(imported, local, is_type)` from the first one or two. -/
def extract_import_specifier (n : Node) : Str × Str × Bool :=
  let identifiers := n.children.filterMap fun c =>
    if c.kind = "identifier".data ∨ c.kind = "type_identifier".data then some c.text
    else none
  let is_type := n.children.any fun c => decide (c.kind = "type".data)
  match identifiers with
  | [] => ([], [], is_type)
  | [x] => (x, x, is_type)
  | x :: y :: _ => (x, y, is_type)

/-- Model of `extract_named_imports`: one binding per `import_specifier` child with
nonempty imported name. -/
def extract_named_imports (n : Node) : List (Str × Str × Bool) :=
  n.children.flatMap fun c =>
    if c.kind = "import_specifier".data then
      let r := extract_import_specifier c
      if r.1 = [] then [] else [r]
    else []

/-- Model of `extract_namespace_local`: the first identifier child's text, `*`
otherwise. -/
def extract_namespace_local (n : Node) : Str :=
  match n.children.find? (fun c => decide (c.kind = "identifier".data)) with
  | some c => c.text
  | none => "*".data

/-- Model of `extract_import_clause`: default identifier, namespace import, and
named imports, in child order. -/
def extract_import_clause (n : Node) : List (Str × Str × Bool) :=
  n.children.flatMap fun c =>
    if c.kind = "identifier".data then
      if c.text = [] then [] else [("default".data, c.text, false)]
    else if c.kind = "namespace_import".data then
      [("*".data, extract_namespace_local c, false)]
    else if c.kind = "named_imports".data then
      extract_named_imports c
    else []

/-- Model of `extract_import_bindings`: bindings of every `import_clause` child of an
`import_statement`. -/
def extract_import_bindings (n : Node) : List (Str × Str × Bool) :=
  n.children.flatMap fun c =>
    if c.kind = "import_clause".data then extract_import_clause c else []

/-- Model of `extract_export_specifier`: like `extract_import_specifier` but without
the type flag. -/
def extract_export_specifier (n : Node) : Str × Str :=
  let identifiers := n.children.filterMap fun c =>
    if c.kind = "identifier".data ∨ c.kind = "type_identifier".data then some c.text
    else none
  match identifiers with
  | [] => ([], [])
  | [x] => (x, x)
  | x :: y :: _ => (x, y)

/-- Model of `extract_reexport_bindings`: one binding per `export_specifier` inside
each `export_clause` child, skipping empty imported names. -/
def extract_reexport_bindings (n : Node) : List (Str × Str) :=
  n.children.flatMap fun c =>
    if c.kind = "export_clause".data then
      c.children.flatMap fun s =>
        if s.kind = "export_specifier".data then
          let r := extract_export_specifier s
          if r.1 = [] then [] else [r]
        else []
    else []

/-- One match of the TS/JS import query (`@import`, `@reexport`,
`@dynamic_import` or `@call`, each with its `@source` capture's text). -/
inductive ImportMatch where
  | staticImport (importNode : Node) (sourceText : Str)
  | reexport (exportNode : Node) (sourceText : Str)
  | dynamicImport (row : Nat) (sourceText : Str)
  | call (fnName : Str) (row : Nat) (sourceText : Str)

/-- Model of `extract_imports` (`src/languages/typescript.rs`): dispatch on which
query pattern matched, skipping matches whose stripped specifier is
empty. -/
def extract_imports (ms : List ImportMatch) (file_path : Str) : List ImportInfo :=
  ms.flatMap fun m =>
    match m with
    | .staticImport n srcText =>
      let module_specifier := Ts.strip_quotes srcText
      if module_specifier = [] then []
      else
        let line := n.row
        let is_type_only := has_type_keyword n
        let extracted := extract_import_bindings n
        let is_external := ImportInfo.is_external_specifier module_specifier
        if extracted = [] then
          [{ source_file := file_path, module_specifier, imported_name := "*".data,
             local_name := "*".data, kind := "static".data, is_type_only, line,
             is_external }]
        else
          extracted.map fun b =>
            { source_file := file_path, module_specifier, imported_name := b.1,
              local_name := b.2.1, kind := "static".data,
              is_type_only := is_type_only || b.2.2, line, is_external }
    | .reexport n srcText =>
      let module_specifier := Ts.strip_quotes srcText
      if module_specifier = [] then []
      else
        let line := n.row
        let extracted := extract_reexport_bindings n
        let is_external := ImportInfo.is_external_specifier module_specifier
        if extracted = [] then
          [{ source_file := file_path, module_specifier, imported_name := "*".data,
             local_name := "*".data, kind := "re_export".data,
             is_type_only := has_type_keyword n, line, is_external }]
        else
          extracted.map fun b =>
            { source_file := file_path, module_specifier, imported_name := b.1,
              local_name := b.2, kind := "re_export".data,
              is_type_only := has_type_keyword n, line, is_external }
    | .dynamicImport row srcText =>
      let module_specifier := Ts.strip_quotes srcText
      if module_specifier = [] then []
      else
        [{ source_file := file_path, module_specifier, imported_name := "*".data,
           local_name := "*".data, kind := "dynamic".data, is_type_only := false,
           line := row,
           is_external := ImportInfo.is_external_specifier module_specifier }]
    | .call fnName row srcText =>
      let module_specifier := Ts.strip_quotes srcText
      if module_specifier = [] then []
      else if fnName = "require".data then
        [{ source_file := file_path, module_specifier, imported_name := "*".data,
           local_name := "*".data, kind := "require".data, is_type_only := false,
           line := row,
           is_external := ImportInfo.is_external_specifier module_specifier }]
      else []

/-- The tree-sitter parse of `import React, { useState, useEffect } from
"react";`: the `import_statement` node with its clause. -/
def reactImportStatement : Node :=
  .node "import_statement".data false "".data 0
    [ .node "import".data false "import".data 0 []
    , .node "import_clause".data true "".data 0
        [ .node "identifier".data true "React".data 0 []
        , .node ",".data false ",".data 0 []
        , .node "named_imports".data true "".data 0
            [ .node "\x7b".data false "\x7b".data 0 []
            , .node "import_specifier".data true "useState".data 0
                [ .node "identifier".data true "useState".data 0 [] ]
            , .node ",".data false ",".data 0 []
            , .node "import_specifier".data true "useEffect".data 0
                [ .node "identifier".data true "useEffect".data 0 [] ]
            , .node "\x7d".data false "\x7d".data 0 []
            ]
        ]
    , .node "from".data false "from".data 0 []
    , .node "string".data true "\"react\"".data 0 []
    , .node ";".data false ";".data 0 []
    ]

end Ts

/-! ## Parse coordinator (`src/main.rs`, `run_parse`)

Filesystem effects are modelled as data: each supported file is a `FileJob`
carrying the outcomes of its three fallible steps (parser creation, source
read, tree parse) and the record vectors its extractors produce on success.
`discover_all_files` is not under `src/`; per §4.2 of the specification it
fails only when the root is unreadable, so its outcome is a single
`Except` value.  The output phase (`create_dir_all` plus the five parquet
writes) is likewise one `Except` value: it fails exactly when the output
directory is unwritable. -/

/-- One supported file as the phase-4 worker sees it (`src/main.rs`,
lines 335-427): path data plus the outcome of each fallible step and the
extracted record vectors. -/
structure FileJob where
  relative_path : Str
  file_name : Str
  file_ext : Str
  lang_tag : Str
  size_bytes : Nat
  parserStep : Except Str Unit
  readStep : Except Str Str
  parseStep : Except Str FileMetadata
  syms : List SymbolInfo
  imps : List ImportInfo
  cmts : List CommentInfo

/-- Model of `enum ParseResult` (`src/main.rs`). -/
inductive ParseResult where
  | success (meta : FileMetadata) (syms : List SymbolInfo) (imps : List ImportInfo)
      (cmts : List CommentInfo)
  | error (e : ParseError)

/-- The phase-4 worker body (`src/main.rs`, lines 358-427): the first
failing step yields an Error record with the matching `error_type`; when
all steps succeed the file's records are emitted. -/
def processFile (j : FileJob) : ParseResult :=
  match j.parserStep with
  | .error e =>
    .error ⟨j.relative_path, j.file_name, j.file_ext, j.lang_tag,
      "parser_creation".data, e, j.size_bytes⟩
  | .ok _ =>
    match j.readStep with
    | .error e =>
      .error ⟨j.relative_path, j.file_name, j.file_ext, j.lang_tag,
        "file_read".data, e, j.size_bytes⟩
    | .ok _ =>
      match j.parseStep with
      | .error e =>
        .error ⟨j.relative_path, j.file_name, j.file_ext, j.lang_tag,
          "parse_failure".data, e, j.size_bytes⟩
      | .ok meta => .success meta j.syms j.imps j.cmts

/-- The five in-memory fact streams assembled in phase 5. -/
structure Tables where
  files : List FileMetadata
  symbols : List SymbolInfo
  imports : List ImportInfo
  comments : List CommentInfo
  errors : List ParseError
deriving DecidableEq

/-- Phase 5 (`src/main.rs`, lines 430-453): split successes and errors in
result order, then append the unsupported file metadata. -/
def collectResults (results : List ParseResult) (unsupported : List FileMetadata) :
    Tables where
  files :=
    (results.filterMap fun r =>
      match r with
      | .success m _ _ _ => some m
      | .error _ => none) ++ unsupported
  symbols := results.flatMap fun r =>
    match r with
    | .success _ s _ _ => s
    | .error _ => []
  imports := results.flatMap fun r =>
    match r with
    | .success _ _ i _ => i
    | .error _ => []
  comments := results.flatMap fun r =>
    match r with
    | .success _ _ _ c => c
    | .error _ => []
  errors := results.filterMap fun r =>
    match r with
    | .success _ _ _ _ => none
    | .error e => some e

/-- Model of `run_parse` (`src/main.rs`): canonicalize the root, reject an empty
language list, discover files (yielding the supported jobs and the
unsupported metadata, with an early successful exit when nothing was
discovered), process every supported file, collect, and write. -/
def run_parse (rootStep : Except Str Unit) (langs : List Str)
    (discoverStep : Except Str (List FileJob × List FileMetadata))
    (writeStep : Except Str Unit) : Except Str Tables :=
  match rootStep with
  | .error e => .error e
  | .ok _ =>
    if langs = [] then .error "no valid languages specified".data
    else
      match discoverStep with
      | .error e => .error e
      | .ok (supported, unsupported) =>
        if supported.isEmpty && unsupported.isEmpty then .ok ⟨[], [], [], [], []⟩
        else
          let tables := collectResults (supported.map processFile) unsupported
          match writeStep with
          | .error e => .error e
          | .ok _ => .ok tables

/-! ## Dependents report (`src/query/dependents.rs`)

The SQL query `SELECT source_file, imported_name, local_name, kind, line
FROM imports WHERE module_specifier LIKE '%stem%' ORDER BY source_file,
line` is modelled as filter, projection and sort over the persisted imports
table. -/

/-- Model of `struct DependentEntry` (`src/query/dependents.rs`). -/
structure DependentEntry where
  source_file : Str
  imported_name : Str
  local_name : Str
  kind : Str
  line : Nat
deriving DecidableEq

/-- The row projection of the dependents SELECT list. -/
def toDependentEntry (r : ImportInfo) : DependentEntry :=
  ⟨r.source_file, r.imported_name, r.local_name, r.kind, r.line⟩

/-- The stem computed by `query_dependents` (`src/query/dependents.rs`,
lines 37-42): strip a leading `./` and trailing `.ts`/`.tsx`/`.js`/`.jsx`
repetitions. -/
def dependents_stem (file_path : Str) : Str :=
  trimEndMatchesL ".jsx".data
    (trimEndMatchesL ".js".data
      (trimEndMatchesL ".tsx".data
        (trimEndMatchesL ".ts".data
          (trimStartMatchesL "./".data file_path))))

/-- Model of `ORDER BY source_file, line` as a Boolean preorder. -/
def dependents_le (a b : DependentEntry) : Bool :=
  strLt a.source_file b.source_file
    || (decide (a.source_file = b.source_file) && decide (a.line ≤ b.line))

/-- Model of `query_dependents` (`src/query/dependents.rs`): rows whose specifier
contains the stem, projected and ordered by `(source_file, line)`. -/
def query_dependents (imports : List ImportInfo) (file_path : Str) :
    List DependentEntry :=
  let stem := dependents_stem file_path
  sortByLe dependents_le
    ((imports.filter fun r => containsSub stem r.module_specifier).map
      toDependentEntry)

/-- The dependents report as the specification's §4.7 words it: rows whose
specifier contains the stem of the file path with its extension stripped.
Stated from the spec only, for comparison with `query_dependents`. -/
def query_dependents_claimed (imports : List ImportInfo) (file_path : Str) :
    List DependentEntry :=
  let stem :=
    match rfindIdxChar '.' file_path with
    | some i => file_path.take i
    | none => file_path
  sortByLe dependents_le
    ((imports.filter fun r => containsSub stem r.module_specifier).map
      toDependentEntry)

/-! ## Read report (`src/query/read.rs`)

`format_lines` slices the line vector with `lines[start..end]`; a slice
whose start exceeds its end panics in Rust, modelled as `none`. -/

/-- One piece of Rust `str::lines`: a trailing `\r` is removed only from
pieces that were terminated by `\n`. -/
def stripCR (p : Str) : Str :=
  if p.getLast? = some '\r' then p.dropLast else p

/-- Rust `str::lines` over the whole content. -/
def rustLines (content : Str) : List Str :=
  match splitOnChar '\n' content with
  | [] => []
  | ps =>
    let init := (ps.dropLast).map stripCR
    match ps.getLast? with
    | some [] => init
    | some lastPiece => init ++ [lastPiece]
    | none => []

/-- Rust `format!("{:>4}", n)`: decimal, right-aligned to width 4. -/
def padNum (n : Nat) : Str :=
  let s := (Nat.repr n).data
  List.replicate (4 - s.length) ' ' ++ s

/-- The render loop of `format_lines`: each line prefixed with its 1-based
number (`line_num = start + i + 1`). -/
def renderNumbered : List Str → Nat → Str
  | [], _ => []
  | l :: ls, idx => padNum (idx + 1) ++ "  ".data ++ l ++ '\n' :: renderNumbered ls (idx + 1)

/-- Model of `format_lines` (`src/query/read.rs`): clamp the end to the line count,
return the empty string when the start is past the last line, and slice
`lines[start..end]` — which panics (`none`) when `start > end`. -/
def format_lines (content : Str) (start_line end_line : Option Nat) : Option Str :=
  let lines := rustLines content
  let total := lines.length
  let start := (start_line.map fun s => s - 1).getD 0
  let e := (end_line.map fun x => min x total).getD total
  if start ≥ total then some []
  else if start ≤ e then some (renderNumbered ((lines.drop start).take (e - start)) start)
  else none

/-! ## Well-formedness predicates for parsed inputs

The extractors receive text produced by a real parser.  The predicates
below state the (decidable) facts about that text which every actual parse
satisfies and under which the name-nonemptiness invariant is proved. -/

/-- All nodes reachable within `k` child-steps of a node. -/
def Ts.nodesToDepth : Nat → Ts.Node → List Ts.Node
  | 0, n => [n]
  | k + 1, n => n :: n.children.flatMap (Ts.nodesToDepth k)

/-- Every identifier-like node reachable within four levels (the deepest
level `extract_imports` inspects) carries nonempty text — true of every
real parse, since an identifier token is a nonempty word. -/
def Ts.identTextsOkB (n : Ts.Node) : Bool :=
  (Ts.nodesToDepth 4 n).all fun d =>
    !(decide (d.kind = "identifier".data) || decide (d.kind = "type_identifier".data))
      || !d.text.isEmpty

/-- Node well-formedness per import-query match. -/
def Ts.matchNodesOkB : Ts.ImportMatch → Bool
  | .staticImport n _ => Ts.identTextsOkB n
  | .reexport n _ => Ts.identTextsOkB n
  | .dynamicImport _ _ => true
  | .call _ _ _ => true

/-- The last character exists, is not whitespace and is not `:`. -/
def RustLang.lastCharOkB (s : Str) : Bool :=
  match s.getLast? with
  | some c => !isWS c && !(decide (c = ':'))
  | none => false

/-- Well-formedness of a simple (non-grouped) `use` path text: it ends in
a proper name character (or in `::*`), and so does the part before
` as ` when an alias is present — true of every real `use` path. -/
def RustLang.simple_path_okB (p : Str) : Bool :=
  match splitOnceStr " as ".data p with
  | some (q, _) =>
    (match p.getLast? with
     | some c => !isWS c
     | none => false) && RustLang.lastCharOkB q
  | none => ("::*".data.isSuffixOf p) || RustLang.lastCharOkB p

/-- Well-formedness of a `use` path text: each unaliased grouped item does
not end in `:`; simple paths per `simple_path_okB`. -/
def RustLang.use_path_okB (path_text : Str) : Bool :=
  match findIdxChar '\x7b' path_text with
  | some brace_start =>
    (splitOnChar ','
        ((path_text.take
          ((rfindIdxChar '\x7d' path_text).getD path_text.length)).drop
          (brace_start + 1))).all fun item =>
      if rsTrim item = [] then true
      else
        match splitOnceStr " as ".data (rsTrim item) with
        | some _ => true
        | none => !(decide ((rsTrim item).getLast? = some ':'))
  | none => RustLang.simple_path_okB path_text

/-! ## Theorems -/

/-- C10: `format_lines` is **not** total: with five lines, `start_line = 4`
and `end_line = 2` reach the slice `lines[3..2]`, which panics in Rust
(modelled as `none`); the in-bounds behaviours of the claim (start past the
last line gives an empty success, end clamped to the last line, 1-based
numbered prefixes) are exhibited on the same content. -/
theorem format_lines_reversed_range_panics :
    format_lines "a\nb\nc\nd\ne".data (some 4) (some 2) = none ∧
    format_lines "a\nb\nc\nd\ne".data (some 6) (some 2) = some [] ∧
    format_lines "a\nb".data (some 1) (some 99) = some "   1  a\n   2  b\n".data :=
  ⟨rfl, rfl, rfl⟩

/-- C5 (counterexample): the C/C++ comment classifier labels `//!` as
`line` and `/*!` as `block`, while the claim requires `doc` for both. -/
theorem c_classify_comment_misses_bang_docs :
    CLang.classify_comment "//! inner doc".data = "line".data ∧
    CLang.classify_comment "/*! bang doc */".data = "block".data ∧
    "line".data ≠ "doc".data ∧ "block".data ≠ "doc".data :=
  ⟨rfl, rfl, by decide, by decide⟩

/-- C5 (amended): the Rust classifier returns `doc` exactly for the four
delimiters `/**`, `///`, `//!`, `/*!`; the C/C++ classifier returns `doc`
exactly for `/**` and `///` (so `//!` falls to `line` and `/*!` to
`block`); for both, any other `/* ... */` comment is `block` and everything
else is `line`. -/
theorem classify_comment_doc_delimiters (text : Str) :
    (RustLang.classify_comment text = "doc".data ↔
      ("/**".data.isPrefixOf (trimStart text) ∨ "///".data.isPrefixOf (trimStart text) ∨
       "//!".data.isPrefixOf (trimStart text) ∨ "/*!".data.isPrefixOf (trimStart text))) ∧
    (CLang.classify_comment text = "doc".data ↔
      ("/**".data.isPrefixOf (trimStart text) ∨ "///".data.isPrefixOf (trimStart text))) ∧
    (CLang.classify_comment text = "block".data ↔
      ("/*".data.isPrefixOf (trimStart text) ∧
       ¬("/**".data.isPrefixOf (trimStart text) ∨ "///".data.isPrefixOf (trimStart text)))) ∧
    (CLang.classify_comment text = "line".data ↔
      (¬("/*".data.isPrefixOf (trimStart text)) ∧
       ¬("/**".data.isPrefixOf (trimStart text) ∨ "///".data.isPrefixOf (trimStart text)))) := by
  cases h1 : "/**".data.isPrefixOf (trimStart text)
    <;> cases h2 : "///".data.isPrefixOf (trimStart text)
    <;> cases h3 : "//!".data.isPrefixOf (trimStart text)
    <;> cases h4 : "/*!".data.isPrefixOf (trimStart text)
    <;> cases h5 : "/*".data.isPrefixOf (trimStart text)
    <;> simp [RustLang.classify_comment, CLang.classify_comment, h1, h2, h3, h4, h5]

/-- C1 (counterexample): `#include <stdio.h>` and `#include "stdio.h"`
produce two rows with the same `module_specifier` (`stdio.h`, the
delimiters having been stripped) but different `is_external` values. -/
theorem c_same_specifier_different_is_external :
    CLang.extract_imports
        [⟨"system_lib_string".data, "<stdio.h>".data, 0⟩,
         ⟨"string_literal".data, "\"stdio.h\"".data, 1⟩] "main.c".data =
      [⟨"main.c".data, "stdio.h".data, "*".data, "*".data, "include".data, false, 0, true⟩,
       ⟨"main.c".data, "stdio.h".data, "*".data, "*".data, "include".data, false, 1, false⟩] ∧
    (true : Bool) ≠ false :=
  ⟨rfl, by decide⟩

/-- C2 (counterexample): for `use std::fmt::{Debug as D};` the single
emitted row carries `module_specifier = "std::fmt::Debug as D"` — the alias
text is part of the specifier, contradicting the claim's
`"std::fmt::Debug"`. -/
theorem rust_grouped_use_alias_in_specifier :
    RustLang.extract_use_imports
        ("std::fmt::".data ++ '\x7b' :: "Debug as D".data ++ ['\x7d'])
        "lib.rs".data 0 =
      [⟨"lib.rs".data, "std::fmt::Debug as D".data, "Debug".data, "D".data,
        "use".data, false, 0, true⟩] ∧
    "std::fmt::Debug as D".data ≠ "std::fmt::Debug".data :=
  ⟨rfl, by decide⟩

/-- C9 (counterexample): for the file path `src/foo.py` the code keeps the
`.py` extension in the match stem (only `.ts`/`.tsx`/`.js`/`.jsx` are
stripped), so an import of `src/foo` is not reported, while the claim's
extension-stripped stem would report it. -/
theorem query_dependents_keeps_unknown_extension :
    query_dependents
        [⟨"a.ts".data, "src/foo".data, "x".data, "x".data, "static".data, false, 3, false⟩]
        "src/foo.py".data = [] ∧
    query_dependents_claimed
        [⟨"a.ts".data, "src/foo".data, "x".data, "x".data, "static".data, false, 3, false⟩]
        "src/foo.py".data =
      [⟨"a.ts".data, "x".data, "x".data, "static".data, 3⟩] :=
  ⟨rfl, rfl⟩

/-- C6: a C/C++ include row is external iff the include used angle brackets
(equivalently, iff the `@path` capture is a `system_lib_string`); every row
has kind `include`; the two-directive scenario from the specification is
reproduced exactly. -/
theorem c_include_external_iff_angle :
    (CLang.extract_imports
        [⟨"system_lib_string".data, "<stdio.h>".data, 0⟩,
         ⟨"string_literal".data, "\"x.h\"".data, 1⟩] "main.c".data =
      [⟨"main.c".data, "stdio.h".data, "*".data, "*".data, "include".data, false, 0, true⟩,
       ⟨"main.c".data, "x.h".data, "*".data, "*".data, "include".data, false, 1, false⟩]) ∧
    (∀ ms file r, r ∈ CLang.extract_imports ms file → r.kind = "include".data) ∧
    (∀ (m : CLang.CIncludeMatch) file r,
      (m.pathKind = "system_lib_string".data ↔ startsWithChar '<' m.rawPath = true) →
      r ∈ CLang.extract_imports [m] file →
      (r.is_external = true ↔ startsWithChar '<' m.rawPath = true)) := by
  refine ⟨rfl, ?_, ?_⟩
  · intro ms file r hr
    rw [CLang.extract_imports, List.mem_filterMap] at hr
    obtain ⟨m, _, hm⟩ := hr
    split at hm
    · exact absurd hm (by simp)
    · cases hm
      rfl
  · intro m file r hwf hr
    rw [CLang.extract_imports, List.mem_filterMap] at hr
    obtain ⟨m', hm', hm⟩ := hr
    rw [List.mem_singleton] at hm'
    subst hm'
    split at hm
    · exact absurd hm (by simp)
    · cases hm
      simp only [decide_eq_true_eq]
      exact hwf

/-- C4: the TypeScript input `import React, { useState, useEffect } from
"react";` produces exactly the three claimed rows, all `static`, external
and not type-only; in general a side-effect import (no bindings) yields the
single `*`/`*` row, a named import with a single identifier binds the bare
name to itself, and a default identifier in the clause binds
`default` to the local name. -/
theorem ts_import_binding_rows :
    (Ts.extract_imports [.staticImport Ts.reactImportStatement "\"react\"".data]
        "test.ts".data =
      [⟨"test.ts".data, "react".data, "default".data, "React".data, "static".data,
        false, 0, true⟩,
       ⟨"test.ts".data, "react".data, "useState".data, "useState".data, "static".data,
        false, 0, true⟩,
       ⟨"test.ts".data, "react".data, "useEffect".data, "useEffect".data, "static".data,
        false, 0, true⟩]) ∧
    (∀ (n : Ts.Node) (src file : Str),
      Ts.strip_quotes src ≠ [] →
      Ts.extract_import_bindings n = [] →
      Ts.extract_imports [.staticImport n src] file =
        [⟨file, Ts.strip_quotes src, "*".data, "*".data, "static".data,
          Ts.has_type_keyword n, n.row, ImportInfo.is_external_specifier (Ts.strip_quotes src)⟩]) ∧
    (∀ (n : Ts.Node) (x : Str),
      (n.children.filterMap fun c =>
        if c.kind = "identifier".data ∨ c.kind = "type_identifier".data then some c.text
        else none) = [x] →
      Ts.extract_import_specifier n =
        (x, x, n.children.any fun c => decide (c.kind = "type".data))) ∧
    (∀ (n c : Ts.Node), c ∈ n.children → c.kind = "identifier".data → c.text ≠ [] →
      ("default".data, c.text, false) ∈ Ts.extract_import_clause n) := by
  refine ⟨rfl, ?_, ?_, ?_⟩
  · intro n src file h1 h2
    simp [Ts.extract_imports, h1, h2]
  · intro n x h
    simp [Ts.extract_import_specifier, h]
  · intro n c hc hk ht
    rw [Ts.extract_import_clause, List.mem_flatMap]
    exact ⟨c, hc, by simp [hk, ht]⟩

/-- Witness for C4: the side-effect clause of the theorem instantiated on
`import "./polyfill";`. -/
theorem ts_import_binding_rows_witness :
    Ts.extract_imports
        [.staticImport
          (.node "import_statement".data false [] 0
            [ .node "import".data false "import".data 0 []
            , .node "string".data true "\"./polyfill\"".data 0 [] ])
          "\"./polyfill\"".data] "t.ts".data =
      [⟨"t.ts".data, "./polyfill".data, "*".data, "*".data, "static".data,
        false, 0, false⟩] :=
  (ts_import_binding_rows.2.1
    (.node "import_statement".data false [] 0
      [ .node "import".data false "import".data 0 []
      , .node "string".data true "\"./polyfill\"".data 0 [] ])
    "\"./polyfill\"".data "t.ts".data (by decide) rfl).trans rfl

theorem insertSorted_perm (le : α → α → Bool) (a : α) (l : List α) :
    (insertSorted le a l).Perm (a :: l) := by
  induction l with
  | nil => simp [insertSorted]
  | cons b bs ih =>
    rw [insertSorted]
    by_cases h : le a b = true
    · simp [h]
    · simp only [h, if_false]
      exact (ih.cons b).trans (List.Perm.swap a b bs)

theorem sortByLe_perm (le : α → α → Bool) (l : List α) : (sortByLe le l).Perm l := by
  induction l with
  | nil => simp [sortByLe]
  | cons a as ih =>
    rw [sortByLe]
    exact (insertSorted_perm le a (sortByLe le as)).trans (ih.cons a)

theorem insertSorted_pairwise (le : α → α → Bool)
    (htrans : ∀ x y z, le x y = true → le y z = true → le x z = true)
    (htotal : ∀ x y, le x y = false → le y x = true) (a : α) (l : List α)
    (hl : l.Pairwise (fun x y => le x y = true)) :
    (insertSorted le a l).Pairwise (fun x y => le x y = true) := by
  induction l with
  | nil => simp [insertSorted]
  | cons b bs ih =>
    rw [List.pairwise_cons] at hl
    obtain ⟨hb, hbs⟩ := hl
    rw [insertSorted]
    by_cases h : le a b = true
    · simp only [h, if_true]
      refine List.Pairwise.cons ?_ (List.Pairwise.cons hb hbs)
      intro x hx
      rcases List.mem_cons.mp hx with rfl | hx
      · exact h
      · exact htrans a b x h (hb x hx)
    · simp only [h, if_false]
      refine List.Pairwise.cons ?_ (ih hbs)
      intro x hx
      rcases (insertSorted_perm le a bs).mem_iff.mp hx with hx'
      rcases List.mem_cons.mp hx' with rfl | hx''
      · exact htotal x b (by simpa using h)
      · exact hb x hx''

theorem sortByLe_pairwise (le : α → α → Bool)
    (htrans : ∀ x y z, le x y = true → le y z = true → le x z = true)
    (htotal : ∀ x y, le x y = false → le y x = true) (l : List α) :
    (sortByLe le l).Pairwise (fun x y => le x y = true) := by
  induction l with
  | nil => simp [sortByLe]
  | cons a as ih =>
    rw [sortByLe]
    exact insertSorted_pairwise le htrans htotal a _ ih

theorem strLt_trans : ∀ a b c : Str, strLt a b = true → strLt b c = true →
    strLt a c = true := by
  intro a
  induction a with
  | nil =>
    intro b c hab hbc
    cases b with
    | nil => simp [strLt] at hab
    | cons y ys =>
      cases c with
      | nil => simp [strLt] at hbc
      | cons z zs => simp [strLt]
  | cons x xs ih =>
    intro b c hab hbc
    cases b with
    | nil => simp [strLt] at hab
    | cons y ys =>
      cases c with
      | nil => simp [strLt] at hbc
      | cons z zs =>
        rw [strLt] at hab hbc ⊢
        by_cases hxy : x < y
        · by_cases hyz : y < z
          · simp [lt_trans hxy hyz]
          · simp only [hyz, if_false] at hbc
            by_cases hzy : z < y
            · simp [hzy] at hbc
            · have hyz' : y = z := le_antisymm (not_lt.mp hzy) (not_lt.mp hyz)
              simp [hyz' ▸ hxy]
        · simp only [hxy, if_false] at hab
          by_cases hyx : y < x
          · simp [hyx] at hab
          · have hxy' : x = y := le_antisymm (not_lt.mp hyx) (not_lt.mp hxy)
            subst hxy'
            rw [if_neg (lt_irrefl x)] at hab
            by_cases hyz : x < z
            · simp [hyz]
            · simp only [hyz, if_false] at hbc ⊢
              by_cases hzy : z < x
              · simp [hzy] at hbc
              · simp only [hzy, if_false] at hbc ⊢
                exact ih ys zs hab hbc

theorem strLt_connex : ∀ a b : Str, strLt a b = false → strLt b a = false → a = b := by
  intro a
  induction a with
  | nil =>
    intro b hab _
    cases b with
    | nil => rfl
    | cons y ys => simp [strLt] at hab
  | cons x xs ih =>
    intro b hab hba
    cases b with
    | nil => simp [strLt] at hba
    | cons y ys =>
      rw [strLt] at hab hba
      by_cases hxy : x < y
      · simp [hxy] at hab
      · by_cases hyx : y < x
        · simp [hxy, hyx] at hba
        · have hxy' : x = y := le_antisymm (not_lt.mp hyx) (not_lt.mp hxy)
          subst hxy'
          rw [if_neg (lt_irrefl x), if_neg (lt_irrefl x)] at hab hba
          rw [ih ys hab hba]

theorem dependents_le_trans : ∀ x y z : DependentEntry,
    dependents_le x y = true → dependents_le y z = true → dependents_le x z = true := by
  intro x y z hxy hyz
  rw [dependents_le, Bool.or_eq_true] at hxy hyz ⊢
  rcases hxy with hxy | hxy
  · rcases hyz with hyz | hyz
    · exact Or.inl (strLt_trans _ _ _ hxy hyz)
    · rw [Bool.and_eq_true, decide_eq_true_eq, decide_eq_true_eq] at hyz
      exact Or.inl (hyz.1 ▸ hxy)
  · rw [Bool.and_eq_true, decide_eq_true_eq, decide_eq_true_eq] at hxy
    rcases hyz with hyz | hyz
    · exact Or.inl (hxy.1 ▸ hyz)
    · rw [Bool.and_eq_true, decide_eq_true_eq, decide_eq_true_eq] at hyz
      refine Or.inr ?_
      rw [Bool.and_eq_true, decide_eq_true_eq, decide_eq_true_eq]
      exact ⟨hxy.1.trans hyz.1, hxy.2.trans hyz.2⟩

theorem dependents_le_total : ∀ x y : DependentEntry,
    dependents_le x y = false → dependents_le y x = true := by
  intro x y hxy
  rw [dependents_le, Bool.or_eq_false_iff] at hxy
  obtain ⟨h1, h2⟩ := hxy
  rw [dependents_le, Bool.or_eq_true]
  by_cases hyx : strLt y.source_file x.source_file = true
  · exact Or.inl hyx
  · have heq : y.source_file = x.source_file :=
      strLt_connex _ _ (by simpa using hyx) h1
    refine Or.inr ?_
    rw [Bool.and_eq_true, decide_eq_true_eq, decide_eq_true_eq]
    refine ⟨heq, ?_⟩
    rw [Bool.and_eq_false_iff] at h2
    rcases h2 with h2 | h2
    · exact absurd heq.symm (by simpa using h2)
    · have : ¬ x.line ≤ y.line := by simpa using h2
      omega

/-- C9 (amended): the dependents report returns exactly the import rows
whose `module_specifier` contains the code's stem of the file path — the
path with a leading `./` and trailing `.ts`/`.tsx`/`.js`/`.jsx`
repetitions removed, all other extensions kept — projected to the report
columns and ordered by `(source_file, line)`. -/
theorem query_dependents_filter_sort (imports : List ImportInfo) (file_path : Str) :
    (∀ e, e ∈ query_dependents imports file_path ↔
      ∃ r ∈ imports, containsSub (dependents_stem file_path) r.module_specifier = true ∧
        e = toDependentEntry r) ∧
    (query_dependents imports file_path).Perm
      ((imports.filter fun r =>
        containsSub (dependents_stem file_path) r.module_specifier).map toDependentEntry) ∧
    (query_dependents imports file_path).Pairwise
      (fun a b => dependents_le a b = true) := by
  refine ⟨?_, sortByLe_perm _ _, sortByLe_pairwise _ dependents_le_trans dependents_le_total _⟩
  intro e
  simp only [query_dependents]
  rw [(sortByLe_perm dependents_le _).mem_iff]
  simp only [List.mem_map, List.mem_filter]
  constructor
  · rintro ⟨r, ⟨hr, hc⟩, rfl⟩
    exact ⟨r, hr, hc, rfl⟩
  · rintro ⟨r, hr, hc, rfl⟩
    exact ⟨r, ⟨hr, hc⟩, rfl⟩

/-- C8: two extraction runs over the same tree of files — the scheduler
being free to hand the supported files to the workers in any order, and the
unsupported set likewise arriving in any order — produce permutations of
each other's rows in all five tables. -/
theorem extraction_multisets_schedule_invariant
    (r₁ r₂ : Except Str Unit) (langs : List Str)
    (jobs₁ jobs₂ : List FileJob) (u₁ u₂ : List FileMetadata)
    (w₁ w₂ : Except Str Unit) (t₁ t₂ : Tables)
    (h₁ : run_parse r₁ langs (.ok (jobs₁, u₁)) w₁ = .ok t₁)
    (h₂ : run_parse r₂ langs (.ok (jobs₂, u₂)) w₂ = .ok t₂)
    (hj : jobs₁.Perm jobs₂) (hu : u₁.Perm u₂) :
    t₁.files.Perm t₂.files ∧ t₁.symbols.Perm t₂.symbols ∧
    t₁.imports.Perm t₂.imports ∧ t₁.comments.Perm t₂.comments ∧
    t₁.errors.Perm t₂.errors := by
  cases r₁ with
  | error e => simp [run_parse] at h₁
  | ok v₁ =>
  cases r₂ with
  | error e => simp [run_parse] at h₂
  | ok v₂ =>
  simp only [run_parse] at h₁ h₂
  by_cases hlangs : langs = []
  · rw [if_pos hlangs] at h₁
    exact absurd h₁ (by simp)
  · rw [if_neg hlangs] at h₁ h₂
    have hjl : jobs₁.length = jobs₂.length := hj.length_eq
    have hul : u₁.length = u₂.length := hu.length_eq
    have hje : jobs₁.isEmpty = jobs₂.isEmpty := by
      cases jobs₁ <;> cases jobs₂ <;> simp_all
    have hue : u₁.isEmpty = u₂.isEmpty := by
      cases u₁ <;> cases u₂ <;> simp_all
    by_cases hemp : (jobs₁.isEmpty && u₁.isEmpty) = true
    · rw [if_pos hemp] at h₁
      rw [if_pos (by rw [← hje, ← hue]; exact hemp)] at h₂
      cases h₁
      cases h₂
      exact ⟨.refl _, .refl _, .refl _, .refl _, .refl _⟩
    · rw [if_neg hemp] at h₁
      rw [if_neg (by rw [← hje, ← hue]; exact hemp)] at h₂
      cases w₁ with
      | error e => exact absurd h₁ (by simp)
      | ok wv₁ =>
      cases w₂ with
      | error e => exact absurd h₂ (by simp)
      | ok wv₂ =>
      simp only [] at h₁ h₂
      cases h₁
      cases h₂
      have hres : (jobs₁.map processFile).Perm (jobs₂.map processFile) :=
        hj.map processFile
      exact ⟨(hres.filterMap _).append hu, hres.flatMap_right _,
        hres.flatMap_right _, hres.flatMap_right _, hres.filterMap _⟩

/-- C3: per-file failures never fail the run.  The run succeeds exactly
when the root is readable, the language list is nonempty, discovery
succeeded (per §4.2 it fails only for an unreadable root) and the output
directory is writable (or nothing at all was discovered); and on a
successful run each faulty file contributes exactly one error row with the
matching `error_type` — `parser_creation`, `file_read` or `parse_failure`,
in that precedence — while every healthy file's metadata and records are
all collected. -/
theorem run_parse_per_file_errors_isolated :
    (∀ (rootStep : Except Str Unit) (langs : List Str)
        (discoverStep : Except Str (List FileJob × List FileMetadata))
        (writeStep : Except Str Unit),
      (∃ t, run_parse rootStep langs discoverStep writeStep = .ok t) ↔
        ((∃ u, rootStep = .ok u) ∧ langs ≠ [] ∧
          (∃ d, discoverStep = .ok d ∧
            ((∃ w, writeStep = .ok w) ∨ (d.1.isEmpty && d.2.isEmpty) = true)))) ∧
    (∀ (rootOk : Unit) (langs : List Str) (jobs : List FileJob)
        (unsupported : List FileMetadata) (writeOk : Unit) (t : Tables),
      run_parse (.ok rootOk) langs (.ok (jobs, unsupported)) (.ok writeOk) = .ok t →
      t.errors = jobs.filterMap (fun j =>
        match j.parserStep with
        | .error e => some ⟨j.relative_path, j.file_name, j.file_ext, j.lang_tag,
            "parser_creation".data, e, j.size_bytes⟩
        | .ok _ =>
          match j.readStep with
          | .error e => some ⟨j.relative_path, j.file_name, j.file_ext, j.lang_tag,
              "file_read".data, e, j.size_bytes⟩
          | .ok _ =>
            match j.parseStep with
            | .error e => some ⟨j.relative_path, j.file_name, j.file_ext, j.lang_tag,
                "parse_failure".data, e, j.size_bytes⟩
            | .ok _ => none) ∧
      t.files = (jobs.filterMap (fun j =>
        match j.parserStep, j.readStep, j.parseStep with
        | .ok _, .ok _, .ok meta => some meta
        | _, _, _ => none)) ++ unsupported ∧
      t.symbols = jobs.flatMap (fun j =>
        match j.parserStep, j.readStep, j.parseStep with
        | .ok _, .ok _, .ok _ => j.syms
        | _, _, _ => []) ∧
      t.imports = jobs.flatMap (fun j =>
        match j.parserStep, j.readStep, j.parseStep with
        | .ok _, .ok _, .ok _ => j.imps
        | _, _, _ => []) ∧
      t.comments = jobs.flatMap (fun j =>
        match j.parserStep, j.readStep, j.parseStep with
        | .ok _, .ok _, .ok _ => j.cmts
        | _, _, _ => [])) := by
  constructor
  · intro rootStep langs discoverStep writeStep
    constructor
    · rintro ⟨t, ht⟩
      cases rootStep with
      | error e => simp [run_parse] at ht
      | ok u =>
        by_cases hl : langs = []
        · simp [run_parse, hl] at ht
        · cases discoverStep with
          | error e => simp [run_parse, hl] at ht
          | ok d =>
            obtain ⟨sup, uns⟩ := d
            refine ⟨⟨u, rfl⟩, hl, ⟨(sup, uns), rfl, ?_⟩⟩
            simp only [run_parse, if_neg hl] at ht
            by_cases hemp : (sup.isEmpty && uns.isEmpty) = true
            · exact Or.inr hemp
            · rw [if_neg hemp] at ht
              cases writeStep with
              | error e => simp at ht
              | ok w => exact Or.inl ⟨w, rfl⟩
    · rintro ⟨⟨u, rfl⟩, hl, ⟨d, rfl, hw⟩⟩
      obtain ⟨sup, uns⟩ := d
      simp only [run_parse, if_neg hl]
      by_cases hemp : (sup.isEmpty && uns.isEmpty) = true
      · rw [if_pos hemp]
        exact ⟨_, rfl⟩
      · rw [if_neg hemp]
        rcases hw with ⟨w, rfl⟩ | hemp2
        · exact ⟨_, rfl⟩
        · exact absurd hemp2 hemp
  · intro rootOk langs jobs unsupported writeOk t ht
    simp only [run_parse] at ht
    split at ht
    · exact absurd ht (by simp)
    · by_cases hemp : (jobs.isEmpty && unsupported.isEmpty) = true
      · rw [if_pos hemp] at ht
        cases ht
        rw [Bool.and_eq_true, List.isEmpty_iff, List.isEmpty_iff] at hemp
        obtain ⟨h1, h2⟩ := hemp
        subst h1
        subst h2
        exact ⟨rfl, rfl, rfl, rfl, rfl⟩
      · rw [if_neg hemp] at ht
        cases ht
        refine ⟨?_, ?_, ?_, ?_, ?_⟩ <;> simp only [collectResults]
        · rw [List.filterMap_map]
          refine List.filterMap_congr ?_
          intro j _
          rcases j with ⟨rp, fn, fe, lt, sb, ps, rs, pst, sy, im, cm⟩
          cases ps <;> cases rs <;> cases pst <;> rfl
        · congr 1
          rw [List.filterMap_map]
          refine List.filterMap_congr ?_
          intro j _
          rcases j with ⟨rp, fn, fe, lt, sb, ps, rs, pst, sy, im, cm⟩
          cases ps <;> cases rs <;> cases pst <;> rfl
        · rw [List.flatMap_map]
          refine List.flatMap_congr ?_
          intro j _
          rcases j with ⟨rp, fn, fe, lt, sb, ps, rs, pst, sy, im, cm⟩
          cases ps <;> cases rs <;> cases pst <;> rfl
        · rw [List.flatMap_map]
          refine List.flatMap_congr ?_
          intro j _
          rcases j with ⟨rp, fn, fe, lt, sb, ps, rs, pst, sy, im, cm⟩
          cases ps <;> cases rs <;> cases pst <;> rfl
        · rw [List.flatMap_map]
          refine List.flatMap_congr ?_
          intro j _
          rcases j with ⟨rp, fn, fe, lt, sb, ps, rs, pst, sy, im, cm⟩
          cases ps <;> cases rs <;> cases pst <;> rfl

/-- Witness for C3: a run over one healthy Rust file and one unreadable
file succeeds, records exactly one `file_read` error row, and still
collects the healthy file's import row. -/
theorem run_parse_per_file_errors_isolated_witness :
    (⟨[⟨"good.rs".data, "good.rs".data, "rs".data, "rust".data, 12, 1⟩],
      [],
      [⟨"good.rs".data, "std::fs".data, "fs".data, "fs".data, "use".data,
        false, 0, true⟩],
      [],
      [⟨"bad.rs".data, "bad.rs".data, "rs".data, "rust".data,
        "file_read".data, "permission denied".data, 7⟩]⟩ : Tables).errors =
      [⟨"bad.rs".data, "bad.rs".data, "rs".data, "rust".data,
        "file_read".data, "permission denied".data, 7⟩] ∧
    (⟨[⟨"good.rs".data, "good.rs".data, "rs".data, "rust".data, 12, 1⟩],
      [],
      [⟨"good.rs".data, "std::fs".data, "fs".data, "fs".data, "use".data,
        false, 0, true⟩],
      [],
      [⟨"bad.rs".data, "bad.rs".data, "rs".data, "rust".data,
        "file_read".data, "permission denied".data, 7⟩]⟩ : Tables).imports =
      [⟨"good.rs".data, "std::fs".data, "fs".data, "fs".data, "use".data,
        false, 0, true⟩] := by
  have h := run_parse_per_file_errors_isolated.2 () ["rust".data]
    [⟨"good.rs".data, "good.rs".data, "rs".data, "rust".data, 12,
      .ok (), .ok "use std::fs;".data,
      .ok ⟨"good.rs".data, "good.rs".data, "rs".data, "rust".data, 12, 1⟩,
      [], [⟨"good.rs".data, "std::fs".data, "fs".data, "fs".data,
            "use".data, false, 0, true⟩], []⟩,
     ⟨"bad.rs".data, "bad.rs".data, "rs".data, "rust".data, 7,
      .ok (), .error "permission denied".data,
      .ok ⟨"bad.rs".data, "bad.rs".data, "rs".data, "rust".data, 7, 1⟩,
      [], [], []⟩] [] ()
    ⟨[⟨"good.rs".data, "good.rs".data, "rs".data, "rust".data, 12, 1⟩],
     [],
     [⟨"good.rs".data, "std::fs".data, "fs".data, "fs".data, "use".data,
       false, 0, true⟩],
     [],
     [⟨"bad.rs".data, "bad.rs".data, "rs".data, "rust".data,
       "file_read".data, "permission denied".data, 7⟩]⟩ rfl
  exact ⟨h.1.trans rfl, h.2.2.2.1.trans rfl⟩

/-- Witness for C8: two runs over the same two files handed to the workers
in opposite orders produce the same tables up to permutation. -/
theorem extraction_multisets_schedule_invariant_witness :
    ((⟨[⟨"a.c".data, "a.c".data, "c".data, "c".data, 3, 1⟩], [], [], [],
       [⟨"b.c".data, "b.c".data, "c".data, "c".data, "parser_creation".data,
         "boom".data, 4⟩]⟩ : Tables)).files.Perm
      ((⟨[⟨"a.c".data, "a.c".data, "c".data, "c".data, 3, 1⟩], [], [], [],
         [⟨"b.c".data, "b.c".data, "c".data, "c".data, "parser_creation".data,
           "boom".data, 4⟩]⟩ : Tables)).files ∧
    ((⟨[⟨"a.c".data, "a.c".data, "c".data, "c".data, 3, 1⟩], [], [], [],
       [⟨"b.c".data, "b.c".data, "c".data, "c".data, "parser_creation".data,
         "boom".data, 4⟩]⟩ : Tables)).symbols.Perm
      ((⟨[⟨"a.c".data, "a.c".data, "c".data, "c".data, 3, 1⟩], [], [], [],
         [⟨"b.c".data, "b.c".data, "c".data, "c".data, "parser_creation".data,
           "boom".data, 4⟩]⟩ : Tables)).symbols ∧
    ((⟨[⟨"a.c".data, "a.c".data, "c".data, "c".data, 3, 1⟩], [], [], [],
       [⟨"b.c".data, "b.c".data, "c".data, "c".data, "parser_creation".data,
         "boom".data, 4⟩]⟩ : Tables)).imports.Perm
      ((⟨[⟨"a.c".data, "a.c".data, "c".data, "c".data, 3, 1⟩], [], [], [],
         [⟨"b.c".data, "b.c".data, "c".data, "c".data, "parser_creation".data,
           "boom".data, 4⟩]⟩ : Tables)).imports ∧
    ((⟨[⟨"a.c".data, "a.c".data, "c".data, "c".data, 3, 1⟩], [], [], [],
       [⟨"b.c".data, "b.c".data, "c".data, "c".data, "parser_creation".data,
         "boom".data, 4⟩]⟩ : Tables)).comments.Perm
      ((⟨[⟨"a.c".data, "a.c".data, "c".data, "c".data, 3, 1⟩], [], [], [],
         [⟨"b.c".data, "b.c".data, "c".data, "c".data, "parser_creation".data,
           "boom".data, 4⟩]⟩ : Tables)).comments ∧
    ((⟨[⟨"a.c".data, "a.c".data, "c".data, "c".data, 3, 1⟩], [], [], [],
       [⟨"b.c".data, "b.c".data, "c".data, "c".data, "parser_creation".data,
         "boom".data, 4⟩]⟩ : Tables)).errors.Perm
      ((⟨[⟨"a.c".data, "a.c".data, "c".data, "c".data, 3, 1⟩], [], [], [],
         [⟨"b.c".data, "b.c".data, "c".data, "c".data, "parser_creation".data,
           "boom".data, 4⟩]⟩ : Tables)).errors :=
  extraction_multisets_schedule_invariant (.ok ()) (.ok ()) ["c".data]
    [⟨"a.c".data, "a.c".data, "c".data, "c".data, 3, .ok (), .ok "x".data,
      .ok ⟨"a.c".data, "a.c".data, "c".data, "c".data, 3, 1⟩, [], [], []⟩,
     ⟨"b.c".data, "b.c".data, "c".data, "c".data, 4, .error "boom".data, .ok "y".data,
      .ok ⟨"b.c".data, "b.c".data, "c".data, "c".data, 4, 1⟩, [], [], []⟩]
    [⟨"b.c".data, "b.c".data, "c".data, "c".data, 4, .error "boom".data, .ok "y".data,
      .ok ⟨"b.c".data, "b.c".data, "c".data, "c".data, 4, 1⟩, [], [], []⟩,
     ⟨"a.c".data, "a.c".data, "c".data, "c".data, 3, .ok (), .ok "x".data,
      .ok ⟨"a.c".data, "a.c".data, "c".data, "c".data, 3, 1⟩, [], [], []⟩]
    [] [] (.ok ()) (.ok ())
    ⟨[⟨"a.c".data, "a.c".data, "c".data, "c".data, 3, 1⟩], [], [], [],
     [⟨"b.c".data, "b.c".data, "c".data, "c".data, "parser_creation".data,
       "boom".data, 4⟩]⟩
    ⟨[⟨"a.c".data, "a.c".data, "c".data, "c".data, 3, 1⟩], [], [], [],
     [⟨"b.c".data, "b.c".data, "c".data, "c".data, "parser_creation".data,
       "boom".data, 4⟩]⟩
    rfl rfl (List.Perm.swap _ _ _) (List.Perm.refl _)

/-- C1 (amended): for the TS/JS extractor `is_external` is a function of
the stored `module_specifier` (namely `is_external_specifier`), so any two
TS/JS rows with the same specifier agree on it; for C/C++ the flag is
derived syntactically from the include delimiter (`system_lib_string`
versus `string_literal`), never from filesystem resolution — but that
delimiter is stripped from `module_specifier`, so two C/C++ rows with equal
specifiers may disagree. -/
theorem ts_is_external_function_of_specifier :
    (∀ (ms : List Ts.ImportMatch) (file : Str) (r : ImportInfo),
      r ∈ Ts.extract_imports ms file →
      r.is_external = ImportInfo.is_external_specifier r.module_specifier) ∧
    (∀ (ms₁ ms₂ : List Ts.ImportMatch) (f₁ f₂ : Str) (r₁ r₂ : ImportInfo),
      r₁ ∈ Ts.extract_imports ms₁ f₁ → r₂ ∈ Ts.extract_imports ms₂ f₂ →
      r₁.module_specifier = r₂.module_specifier →
      r₁.is_external = r₂.is_external) ∧
    (∀ (ms : List CLang.CIncludeMatch) (file : Str) (r : ImportInfo),
      r ∈ CLang.extract_imports ms file →
      ∃ m ∈ ms, r.module_specifier = CLang.strip_include_path m.rawPath ∧
        r.is_external = decide (m.pathKind = "system_lib_string".data)) := by
  have hts : ∀ (ms : List Ts.ImportMatch) (file : Str) (r : ImportInfo),
      r ∈ Ts.extract_imports ms file →
      r.is_external = ImportInfo.is_external_specifier r.module_specifier := by
    intro ms file r hr
    rw [Ts.extract_imports, List.mem_flatMap] at hr
    obtain ⟨m, _, hm⟩ := hr
    cases m with
    | staticImport n src =>
      simp only [] at hm
      by_cases hspec : Ts.strip_quotes src = []
      · rw [if_pos hspec] at hm
        simp at hm
      · rw [if_neg hspec] at hm
        by_cases hext : Ts.extract_import_bindings n = []
        · rw [if_pos hext, List.mem_singleton] at hm
          subst hm; rfl
        · rw [if_neg hext, List.mem_map] at hm
          obtain ⟨b, _, rfl⟩ := hm; rfl
    | reexport n src =>
      simp only [] at hm
      by_cases hspec : Ts.strip_quotes src = []
      · rw [if_pos hspec] at hm
        simp at hm
      · rw [if_neg hspec] at hm
        by_cases hext : Ts.extract_reexport_bindings n = []
        · rw [if_pos hext, List.mem_singleton] at hm
          subst hm; rfl
        · rw [if_neg hext, List.mem_map] at hm
          obtain ⟨b, _, rfl⟩ := hm; rfl
    | dynamicImport row src =>
      simp only [] at hm
      by_cases hspec : Ts.strip_quotes src = []
      · rw [if_pos hspec] at hm
        simp at hm
      · rw [if_neg hspec, List.mem_singleton] at hm
        subst hm; rfl
    | call fn row src =>
      simp only [] at hm
      by_cases hspec : Ts.strip_quotes src = []
      · rw [if_pos hspec] at hm
        simp at hm
      · rw [if_neg hspec] at hm
        by_cases hfn : fn = "require".data
        · rw [if_pos hfn, List.mem_singleton] at hm
          subst hm; rfl
        · rw [if_neg hfn] at hm
          simp at hm
  refine ⟨hts, ?_, ?_⟩
  · intro ms₁ ms₂ f₁ f₂ r₁ r₂ h₁ h₂ hspec
    rw [hts ms₁ f₁ r₁ h₁, hts ms₂ f₂ r₂ h₂, hspec]
  · intro ms file r hr
    rw [CLang.extract_imports, List.mem_filterMap] at hr
    obtain ⟨m, hmem, hm⟩ := hr
    split at hm
    · exact absurd hm (by simp)
    · cases hm
      exact ⟨m, hmem, rfl, rfl⟩

/-- Witness for C1: the functional dependence instantiated on the `react`
default-import row. -/
theorem ts_is_external_function_of_specifier_witness :
    (⟨"test.ts".data, "react".data, "default".data, "React".data, "static".data,
      false, 0, true⟩ : ImportInfo).is_external =
      ImportInfo.is_external_specifier
        (⟨"test.ts".data, "react".data, "default".data, "React".data, "static".data,
          false, 0, true⟩ : ImportInfo).module_specifier :=
  ts_is_external_function_of_specifier.1
    [.staticImport Ts.reactImportStatement "\"react\"".data] "test.ts".data _
    (by decide)

theorem findIdxChar_append_cons {c : Char} {pre rest : Str} (h : c ∉ pre) :
    findIdxChar c (pre ++ c :: rest) = some pre.length := by
  induction pre with
  | nil => simp [findIdxChar]
  | cons a as ih =>
    rw [List.cons_append, findIdxChar]
    have ha : ¬ a = c := fun e => h (e ▸ List.mem_cons_self a as)
    rw [if_neg ha, ih (fun hm => h (List.mem_cons_of_mem a hm))]
    rfl

theorem rfindIdxChar_concat (c : Char) (l : Str) :
    rfindIdxChar c (l ++ [c]) = some l.length := by
  rw [rfindIdxChar, List.reverse_append]
  simp [findIdxChar]

/-- C2 (amended): grouped Rust `use` declarations expand into one row per
nonempty inner item; each row's `imported_name` is the item's own name and
`local_name` the alias when one is present, but `module_specifier` is the
group prefix joined with the item's **entire source text** — including any
` as alias` part — trimmed. -/
theorem rust_grouped_use_expansion (pre inner file : Str) (line : Nat)
    (hpre : '\x7b' ∉ pre) :
    RustLang.extract_use_imports (pre ++ '\x7b' :: (inner ++ ['\x7d'])) file line =
      (splitOnChar ',' inner).filterMap (fun item0 =>
        let item := rsTrim item0
        if item = [] then none
        else
          let names :=
            match splitOnceStr " as ".data item with
            | some (n, a) => (rsTrim n, rsTrim a)
            | none =>
              let n := rsTrim (splitLastStr "::".data item)
              (n, n)
          some
            { source_file := file
              module_specifier := rsTrim (pre ++ item)
              imported_name := names.1
              local_name := names.2
              kind := "use".data
              is_type_only := false
              line := line
              is_external :=
                !(("crate::".data.isPrefixOf (pre ++ '\x7b' :: (inner ++ ['\x7d'])))
                  || ("self::".data.isPrefixOf (pre ++ '\x7b' :: (inner ++ ['\x7d'])))
                  || ("super::".data.isPrefixOf (pre ++ '\x7b' :: (inner ++ ['\x7d'])))) }) := by
  have hX : pre ++ '\x7b' :: (inner ++ ['\x7d']) = (pre ++ '\x7b' :: inner) ++ ['\x7d'] := by
    simp
  have h2 : (pre ++ '\x7b' :: inner).length = pre.length + 1 + inner.length := by
    simp only [List.length_append, List.length_cons]
    omega
  have hbe : rfindIdxChar '\x7d' (pre ++ '\x7b' :: (inner ++ ['\x7d'])) =
      some (pre.length + 1 + inner.length) := by
    rw [hX, rfindIdxChar_concat, h2]
  have htake1 : (pre ++ '\x7b' :: (inner ++ ['\x7d'])).take (pre.length + 1 + inner.length) =
      pre ++ '\x7b' :: inner := by
    rw [hX, ← h2, List.take_left]
  have h3 : pre ++ '\x7b' :: inner = (pre ++ ['\x7b']) ++ inner := by simp
  have h4 : (pre ++ ['\x7b']).length = pre.length + 1 := by simp
  have hslice : ((pre ++ '\x7b' :: (inner ++ ['\x7d'])).take
      (pre.length + 1 + inner.length)).drop (pre.length + 1) = inner := by
    rw [htake1, h3, ← h4, List.drop_left]
  have htake2 : (pre ++ '\x7b' :: (inner ++ ['\x7d'])).take pre.length = pre := by
    rw [List.take_left]
  simp only [RustLang.extract_use_imports, findIdxChar_append_cons hpre, hbe,
    Option.getD_some, hslice, htake2]

theorem rsTrim_eq_nil_iff (s : Str) : rsTrim s = [] ↔ ∀ c ∈ s, isWS c = true := by
  rw [rsTrim, trimEnd, List.reverse_eq_nil_iff, List.dropWhile_eq_nil_iff]
  constructor
  · intro h c hc
    by_cases hw : isWS c = true
    · exact hw
    · rcases List.mem_append.mp
          (by rw [List.takeWhile_append_dropWhile (p := isWS) (l := s)]; exact hc) with
        h1 | h2
      · exact absurd (List.mem_takeWhile_imp h1) hw
      · exact h c (List.mem_reverse.mpr h2)
  · intro h c hc
    exact h c ((List.dropWhile_sublist isWS).subset (List.mem_reverse.mp hc))

theorem dropWhile_head_false {p : α → Bool} :
    ∀ (l : List α) {c : α} {rest : List α}, l.dropWhile p = c :: rest → p c = false := by
  intro l
  induction l with
  | nil => intro c rest h; simp [List.dropWhile] at h
  | cons a as ih =>
    intro c rest h
    rw [List.dropWhile_cons] at h
    by_cases hp : p a = true
    · rw [if_pos hp] at h
      exact ih h
    · rw [if_neg hp] at h
      cases h
      simpa using hp

theorem trimEnd_prefix (s : Str) : trimEnd s <+: s := by
  rw [trimEnd]
  obtain ⟨t, ht⟩ := List.dropWhile_suffix (l := s.reverse) isWS
  exact ⟨t.reverse, by rw [← List.reverse_append, ht, List.reverse_reverse]⟩

theorem rsTrim_head_false {s : Str} {c : Char} {rest : Str}
    (h : rsTrim s = c :: rest) : isWS c = false := by
  rw [rsTrim] at h
  have hp := trimEnd_prefix (trimStart s)
  rw [h] at hp
  obtain ⟨t, ht⟩ := hp
  rw [List.cons_append, trimStart] at ht
  exact dropWhile_head_false s ht.symm

theorem rsTrim_getLast_false {s : Str} {c : Char}
    (h : (rsTrim s).getLast? = some c) : isWS c = false := by
  rw [rsTrim, trimEnd, List.getLast?_reverse] at h
  cases hd : (trimStart s).reverse.dropWhile isWS with
  | nil => rw [hd] at h; simp at h
  | cons x xs =>
    rw [hd] at h
    simp only [List.head?_cons, Option.some.injEq] at h
    subst h
    exact dropWhile_head_false _ hd

theorem rsTrim_ne_nil_of_head {s : Str} {c : Char} {rest : Str}
    (h : s = c :: rest) (hc : isWS c = false) : rsTrim s ≠ [] := by
  intro hnil
  rw [rsTrim_eq_nil_iff] at hnil
  exact absurd (hnil c (h ▸ List.mem_cons_self c rest)) (by simp [hc])

theorem rsTrim_ne_nil_of_getLast {s : Str} {c : Char}
    (h : s.getLast? = some c) (hc : isWS c = false) : rsTrim s ≠ [] := by
  intro hnil
  rw [rsTrim_eq_nil_iff] at hnil
  exact absurd (hnil c (List.mem_of_mem_getLast? h)) (by simp [hc])

theorem splitOnceStr_eq {sep s a b : Str} (h : splitOnceStr sep s = some (a, b)) :
    s = a ++ sep ++ b := by
  induction s generalizing a b with
  | nil => simp [splitOnceStr] at h
  | cons c cs ih =>
    rw [splitOnceStr] at h
    split at h
    · next hp =>
      obtain ⟨t, ht⟩ := List.isPrefixOf_iff_prefix.mp hp
      cases h
      rw [← ht, List.drop_left, List.nil_append]
    · cases ho : splitOnceStr sep cs with
      | none => rw [ho] at h; simp at h
      | some p =>
        obtain ⟨a', b'⟩ := p
        rw [ho] at h
        simp only [Option.map_some', Option.some.injEq, Prod.mk.injEq] at h
        obtain ⟨ha, hb⟩ := h
        subst ha
        subst hb
        rw [ih ho]
        simp

theorem dropAfterFirst_some_nil {sep s : Str} (h : dropAfterFirst sep s = some []) :
    sep <:+ s := by
  induction s with
  | nil => simp [dropAfterFirst] at h
  | cons c cs ih =>
    rw [dropAfterFirst] at h
    split at h
    · next hp =>
      have h' := Option.some.inj h
      obtain ⟨t, ht⟩ := List.isPrefixOf_iff_prefix.mp hp
      rw [← ht, List.drop_left] at h'
      subst h'
      rw [← ht, List.append_nil]
    · exact (ih h).trans (List.suffix_cons c cs)

theorem splitLastA_suffix (sep : Str) : ∀ (fuel : Nat) (s : Str),
    splitLastA sep fuel s <:+ s := by
  intro fuel
  induction fuel with
  | zero => intro s; exact List.suffix_refl s
  | succ k ih =>
    intro s
    rw [splitLastA]
    by_cases he : sep.isEmpty = true
    · rw [if_pos he]
    · rw [if_neg he]
      cases hd : dropAfterFirst sep s with
      | none => exact List.suffix_refl s
      | some r => exact (ih r).trans (dropAfterFirst_suffix hd)

theorem splitLastA_eq_nil {sep : Str} : ∀ {fuel : Nat} {s : Str},
    splitLastA sep fuel s = [] → s = [] ∨ sep <:+ s := by
  intro fuel
  induction fuel with
  | zero => intro s h; exact Or.inl h
  | succ k ih =>
    intro s h
    rw [splitLastA] at h
    by_cases he : sep.isEmpty = true
    · rw [if_pos he] at h
      exact Or.inl h
    · rw [if_neg he] at h
      cases hd : dropAfterFirst sep s with
      | none => rw [hd] at h; exact Or.inl h
      | some r =>
        rw [hd] at h
        rcases ih h with rfl | hsuf
        · exact Or.inr (dropAfterFirst_some_nil hd)
        · exact Or.inr (hsuf.trans (dropAfterFirst_suffix hd))

theorem suffix_getLast {p s : Str} (h : p <:+ s) (hp : p ≠ []) :
    s.getLast? = p.getLast? := by
  obtain ⟨t, ht⟩ := h
  rw [← ht, List.getLast?_append]
  cases hpl : p.getLast? with
  | none => exact absurd (List.getLast?_eq_none_iff.mp hpl) hp
  | some c => rfl

theorem splitLast_colon_props {s : Str} (hne : s ≠ [])
    (hcol : s.getLast? ≠ some ':') :
    splitLastStr "::".data s ≠ [] ∧
      (splitLastStr "::".data s).getLast? = s.getLast? := by
  have hnn : splitLastStr "::".data s ≠ [] := by
    intro h
    rcases splitLastA_eq_nil h with rfl | hsuf
    · exact hne rfl
    · obtain ⟨t, ht⟩ := hsuf
      apply hcol
      rw [← ht, List.getLast?_append]
      rfl
  exact ⟨hnn, (suffix_getLast (splitLastA_suffix _ _ _) hnn).symm⟩

theorem append_as_getLast {n a X : Str} (hdec : X = n ++ " as ".data ++ a) :
    (a = [] → X.getLast? = some ' ') ∧
      (∀ e, a.getLast? = some e → X.getLast? = some e) := by
  constructor
  · intro ha
    subst ha
    rw [hdec, List.append_nil, List.getLast?_append]
    rfl
  · intro e he
    rw [hdec, List.getLast?_append, he]
    rfl

theorem rust_use_names_nonempty (path_text file : Str) (line : Nat)
    (hok : RustLang.use_path_okB path_text = true) :
    ∀ r ∈ RustLang.extract_use_imports path_text file line,
      r.imported_name ≠ [] ∧ r.local_name ≠ [] := by
  intro r hr
  cases hfi : findIdxChar '\x7b' path_text with
  | some brace_start =>
    simp only [RustLang.extract_use_imports, hfi] at hr
    simp only [RustLang.use_path_okB, hfi] at hok
    rw [List.mem_filterMap] at hr
    obtain ⟨item0, hitem, heq⟩ := hr
    rw [List.all_eq_true] at hok
    have hoki := hok item0 hitem
    by_cases htne : rsTrim item0 = []
    · rw [if_pos htne] at heq
      exact absurd heq (by simp)
    · rw [if_neg htne] at heq
      rw [if_neg htne] at hoki
      obtain ⟨c, rest, hcons⟩ : ∃ c rest, rsTrim item0 = c :: rest := by
        cases hh : rsTrim item0 with
        | nil => exact absurd hh htne
        | cons c rest => exact ⟨c, rest, rfl⟩
      have hheadws : isWS c = false := rsTrim_head_false hcons
      obtain ⟨d, hlast⟩ : ∃ d, (rsTrim item0).getLast? = some d := by
        cases hh : (rsTrim item0).getLast? with
        | none => exact absurd (List.getLast?_eq_none_iff.mp hh) htne
        | some d => exact ⟨d, rfl⟩
      have hlastws : isWS d = false := rsTrim_getLast_false hlast
      cases hsp : splitOnceStr " as ".data (rsTrim item0) with
      | some p =>
        obtain ⟨n, a⟩ := p
        rw [hsp] at heq
        cases heq
        have hdec := splitOnceStr_eq hsp
        have hga := append_as_getLast hdec
        constructor
        · cases hn : n with
          | nil =>
            rw [hn, List.nil_append] at hdec
            have hbad := hcons.symm.trans hdec
            rw [show (" as ".data ++ a) = ' ' :: ("as ".data ++ a) from rfl] at hbad
            have hc := (List.cons.injEq _ _ _ _ ▸ hbad).1
            rw [hc] at hheadws
            simp [isWS] at hheadws
          | cons cn ns =>
            rw [hn] at hdec
            simp only [List.cons_append] at hdec
            have hinj := hcons.symm.trans hdec
            have hc := (List.cons.injEq _ _ _ _ ▸ hinj).1
            exact rsTrim_ne_nil_of_head rfl (hc ▸ hheadws)
        · cases haa : a.getLast? with
          | none =>
            have ha := List.getLast?_eq_none_iff.mp haa
            have := hga.1 ha
            rw [hlast] at this
            have hd := Option.some.inj this
            rw [hd] at hlastws
            simp [isWS] at hlastws
          | some e =>
            have := hga.2 e haa
            rw [hlast] at this
            have hd := Option.some.inj this
            exact rsTrim_ne_nil_of_getLast haa (hd ▸ hlastws)
      | none =>
        rw [hsp] at heq hoki
        cases heq
        have hcolon : (rsTrim item0).getLast? ≠ some ':' := by simpa using hoki
        obtain ⟨hpne, hpl⟩ := splitLast_colon_props htne hcolon
        have hple : (splitLastStr "::".data (rsTrim item0)).getLast? = some d := by
          rw [hpl, hlast]
        have hres := rsTrim_ne_nil_of_getLast hple hlastws
        exact ⟨hres, hres⟩
  | none =>
    simp only [RustLang.extract_use_imports, hfi] at hr
    simp only [RustLang.use_path_okB, hfi] at hok
    rw [List.mem_singleton] at hr
    subst hr
    rw [RustLang.simple_path_okB] at hok
    cases hsp : splitOnceStr " as ".data path_text with
    | some p =>
      obtain ⟨q, a⟩ := p
      rw [hsp] at hok
      rw [Bool.and_eq_true] at hok
      obtain ⟨hlastp, hlcq⟩ := hok
      obtain ⟨cP, hpl, hpws⟩ : ∃ cP, path_text.getLast? = some cP ∧ isWS cP = false := by
        cases hh : path_text.getLast? with
        | none => rw [hh] at hlastp; simp at hlastp
        | some cP =>
          rw [hh] at hlastp
          exact ⟨cP, rfl, by simpa using hlastp⟩
      rw [RustLang.lastCharOkB] at hlcq
      obtain ⟨cq, hql, hqws, hqcol⟩ :
          ∃ cq, q.getLast? = some cq ∧ isWS cq = false ∧ cq ≠ ':' := by
        cases hh : q.getLast? with
        | none => rw [hh] at hlcq; simp at hlcq
        | some cq =>
          rw [hh] at hlcq
          rw [Bool.and_eq_true] at hlcq
          exact ⟨cq, rfl, by simpa using hlcq.1, by simpa using hlcq.2⟩
      have hdec := splitOnceStr_eq hsp
      have hga := append_as_getLast hdec
      constructor
      · show rsTrim (splitLastStr "::".data q) ≠ []
        have hqne : q ≠ [] := by
          intro hq
          rw [hq] at hql
          simp at hql
        have hqcol' : q.getLast? ≠ some ':' := by
          rw [hql]
          intro hc
          exact hqcol (Option.some.inj hc)
        obtain ⟨hpne, hpleq⟩ := splitLast_colon_props hqne hqcol'
        have : (splitLastStr "::".data q).getLast? = some cq := by rw [hpleq, hql]
        exact rsTrim_ne_nil_of_getLast this hqws
      · show rsTrim a ≠ []
        cases haa : a.getLast? with
        | none =>
          have ha := List.getLast?_eq_none_iff.mp haa
          have := hga.1 ha
          rw [hpl] at this
          have hd := Option.some.inj this
          rw [hd] at hpws
          simp [isWS] at hpws
        | some e =>
          have := hga.2 e haa
          rw [hpl] at this
          have hd := Option.some.inj this
          exact rsTrim_ne_nil_of_getLast haa (hd ▸ hpws)
    | none =>
      rw [hsp] at hok
      by_cases hstar : ("::*".data.isSuffixOf path_text) = true
      · constructor
        · show (if ("::*".data.isSuffixOf path_text) then
              (path_text, ("*".data : Str), ("*".data : Str))
            else
              (path_text, rsTrim (splitLastStr "::".data path_text),
                rsTrim (splitLastStr "::".data path_text))).2.1 ≠ []
          rw [if_pos hstar]
          simp
        · show (if ("::*".data.isSuffixOf path_text) then
              (path_text, ("*".data : Str), ("*".data : Str))
            else
              (path_text, rsTrim (splitLastStr "::".data path_text),
                rsTrim (splitLastStr "::".data path_text))).2.2 ≠ []
          rw [if_pos hstar]
          simp
      · rw [Bool.or_eq_true] at hok
        rcases hok with hok | hok
        · exact absurd hok hstar
        · rw [RustLang.lastCharOkB] at hok
          obtain ⟨cP, hpl, hpws, hpcol⟩ :
              ∃ cP, path_text.getLast? = some cP ∧ isWS cP = false ∧ cP ≠ ':' := by
            cases hh : path_text.getLast? with
            | none => rw [hh] at hok; simp at hok
            | some cP =>
              rw [hh] at hok
              rw [Bool.and_eq_true] at hok
              exact ⟨cP, rfl, by simpa using hok.1, by simpa using hok.2⟩
          have hne : path_text ≠ [] := by
            intro hq
            rw [hq] at hpl
            simp at hpl
          have hcol' : path_text.getLast? ≠ some ':' := by
            rw [hpl]
            intro hc
            exact hpcol (Option.some.inj hc)
          obtain ⟨hpne, hpleq⟩ := splitLast_colon_props hne hcol'
          have hlasteq : (splitLastStr "::".data path_text).getLast? = some cP := by
            rw [hpleq, hpl]
          have hres := rsTrim_ne_nil_of_getLast hlasteq hpws
          constructor
          · show (if ("::*".data.isSuffixOf path_text) then
                (path_text, ("*".data : Str), ("*".data : Str))
              else
                (path_text, rsTrim (splitLastStr "::".data path_text),
                  rsTrim (splitLastStr "::".data path_text))).2.1 ≠ []
            rw [if_neg (by simp [hstar])]
            exact hres
          · show (if ("::*".data.isSuffixOf path_text) then
                (path_text, ("*".data : Str), ("*".data : Str))
              else
                (path_text, rsTrim (splitLastStr "::".data path_text),
                  rsTrim (splitLastStr "::".data path_text))).2.2 ≠ []
            rw [if_neg (by simp [hstar])]
            exact hres

theorem nodesToDepth_self (k : Nat) (n : Ts.Node) : n ∈ Ts.nodesToDepth k n := by
  cases k <;> simp [Ts.nodesToDepth]

theorem nodesToDepth_child {k : Nat} {n c d : Ts.Node} (hc : c ∈ n.children)
    (hd : d ∈ Ts.nodesToDepth k c) : d ∈ Ts.nodesToDepth (k + 1) n := by
  rw [Ts.nodesToDepth]
  exact List.mem_cons_of_mem _ (List.mem_flatMap.mpr ⟨c, hc, hd⟩)

theorem identTextsOk_spec {n : Ts.Node} (h : Ts.identTextsOkB n = true) :
    ∀ d ∈ Ts.nodesToDepth 4 n,
      (d.kind = "identifier".data ∨ d.kind = "type_identifier".data) → d.text ≠ [] := by
  rw [Ts.identTextsOkB, List.all_eq_true] at h
  intro d hd hk
  have hbool := h d hd
  rw [Bool.or_eq_true] at hbool
  rcases hbool with hh | hh
  · exfalso
    rw [Bool.not_eq_true'] at hh
    rw [Bool.or_eq_false_iff] at hh
    rcases hk with hk | hk
    · simp [hk] at hh
    · simp [hk] at hh
  · intro he
    rw [he] at hh
    simp at hh

theorem extract_import_specifier_names {n : Ts.Node}
    (hid : ∀ c ∈ n.children,
      (c.kind = "identifier".data ∨ c.kind = "type_identifier".data) → c.text ≠ []) :
    ∀ i l t, Ts.extract_import_specifier n = (i, l, t) → i ≠ [] → l ≠ [] := by
  intro i l t h hi
  have hall : ∀ x ∈ n.children.filterMap (fun c =>
      if c.kind = "identifier".data ∨ c.kind = "type_identifier".data then some c.text
      else none), x ≠ [] := by
    intro x hx
    rw [List.mem_filterMap] at hx
    obtain ⟨c, hc, hcx⟩ := hx
    split at hcx
    · next hk =>
      cases hcx
      exact hid c hc hk
    · exact absurd hcx (by simp)
  rw [Ts.extract_import_specifier] at h
  cases hL : n.children.filterMap (fun c =>
      if c.kind = "identifier".data ∨ c.kind = "type_identifier".data then some c.text
      else none) with
  | nil =>
    rw [hL] at h
    cases h
    exact absurd rfl hi
  | cons x xs =>
    cases xs with
    | nil =>
      rw [hL] at h
      cases h
      exact hall _ (by rw [hL]; exact List.mem_cons_self _ _)
    | cons y ys =>
      rw [hL] at h
      cases h
      exact hall _ (by rw [hL]; simp)

theorem extract_export_specifier_names {n : Ts.Node}
    (hid : ∀ c ∈ n.children,
      (c.kind = "identifier".data ∨ c.kind = "type_identifier".data) → c.text ≠ []) :
    ∀ i l, Ts.extract_export_specifier n = (i, l) → i ≠ [] → l ≠ [] := by
  intro i l h hi
  have hall : ∀ x ∈ n.children.filterMap (fun c =>
      if c.kind = "identifier".data ∨ c.kind = "type_identifier".data then some c.text
      else none), x ≠ [] := by
    intro x hx
    rw [List.mem_filterMap] at hx
    obtain ⟨c, hc, hcx⟩ := hx
    split at hcx
    · next hk =>
      cases hcx
      exact hid c hc hk
    · exact absurd hcx (by simp)
  rw [Ts.extract_export_specifier] at h
  cases hL : n.children.filterMap (fun c =>
      if c.kind = "identifier".data ∨ c.kind = "type_identifier".data then some c.text
      else none) with
  | nil =>
    rw [hL] at h
    cases h
    exact absurd rfl hi
  | cons x xs =>
    cases xs with
    | nil =>
      rw [hL] at h
      cases h
      exact hall _ (by rw [hL]; exact List.mem_cons_self _ _)
    | cons y ys =>
      rw [hL] at h
      cases h
      exact hall _ (by rw [hL]; simp)

theorem extract_import_clause_names {n : Ts.Node}
    (hok : ∀ d ∈ Ts.nodesToDepth 3 n,
      (d.kind = "identifier".data ∨ d.kind = "type_identifier".data) → d.text ≠ []) :
    ∀ b ∈ Ts.extract_import_clause n, b.1 ≠ [] ∧ b.2.1 ≠ [] := by
  intro b hb
  rw [Ts.extract_import_clause, List.mem_flatMap] at hb
  obtain ⟨c, hc, hbc⟩ := hb
  by_cases h1 : c.kind = "identifier".data
  · rw [if_pos h1] at hbc
    by_cases h2 : c.text = []
    · rw [if_pos h2] at hbc
      simp at hbc
    · rw [if_neg h2] at hbc
      rw [List.mem_singleton] at hbc
      subst hbc
      exact ⟨show "default".data ≠ [] by decide, h2⟩
  · rw [if_neg h1] at hbc
    by_cases h3 : c.kind = "namespace_import".data
    · rw [if_pos h3] at hbc
      rw [List.mem_singleton] at hbc
      subst hbc
      refine ⟨show "*".data ≠ [] by decide, ?_⟩
      show Ts.extract_namespace_local c ≠ []
      rw [Ts.extract_namespace_local]
      cases hf : c.children.find? (fun cc => decide (cc.kind = "identifier".data)) with
      | none => decide
      | some cc =>
        have hmem := List.mem_of_find?_eq_some hf
        have hkind : cc.kind = "identifier".data := by
          have := List.find?_some hf
          simpa using this
        have hdepth : cc ∈ Ts.nodesToDepth 3 n :=
          nodesToDepth_child hc (nodesToDepth_child hmem (nodesToDepth_self 1 cc))
        exact hok cc hdepth (Or.inl hkind)
    · rw [if_neg h3] at hbc
      by_cases h4 : c.kind = "named_imports".data
      · rw [if_pos h4] at hbc
        rw [Ts.extract_named_imports, List.mem_flatMap] at hbc
        obtain ⟨spec, hspec, hbs⟩ := hbc
        by_cases h5 : spec.kind = "import_specifier".data
        · rw [if_pos h5] at hbs
          by_cases h6 : (Ts.extract_import_specifier spec).1 = []
          · rw [if_pos h6] at hbs
            simp at hbs
          · rw [if_neg h6] at hbs
            rw [List.mem_singleton] at hbs
            subst hbs
            refine ⟨h6, ?_⟩
            have hid : ∀ cc ∈ spec.children,
                (cc.kind = "identifier".data ∨ cc.kind = "type_identifier".data) →
                cc.text ≠ [] := by
              intro cc hcc hkk
              have hdepth : cc ∈ Ts.nodesToDepth 3 n :=
                nodesToDepth_child hc
                  (nodesToDepth_child hspec
                    (nodesToDepth_child hcc (nodesToDepth_self 0 cc)))
              exact hok cc hdepth hkk
            exact extract_import_specifier_names hid _ _ _ rfl h6
        · rw [if_neg h5] at hbs
          simp at hbs
      · rw [if_neg h4] at hbc
        simp at hbc

theorem extract_import_bindings_names {n : Ts.Node}
    (hok4 : Ts.identTextsOkB n = true) :
    ∀ b ∈ Ts.extract_import_bindings n, b.1 ≠ [] ∧ b.2.1 ≠ [] := by
  intro b hb
  rw [Ts.extract_import_bindings, List.mem_flatMap] at hb
  obtain ⟨c, hc, hbc⟩ := hb
  by_cases h : c.kind = "import_clause".data
  · rw [if_pos h] at hbc
    refine extract_import_clause_names ?_ b hbc
    intro d hd hk
    exact identTextsOk_spec hok4 d (nodesToDepth_child hc hd) hk
  · rw [if_neg h] at hbc
    simp at hbc

theorem extract_reexport_bindings_names {n : Ts.Node}
    (hok4 : Ts.identTextsOkB n = true) :
    ∀ b ∈ Ts.extract_reexport_bindings n, b.1 ≠ [] ∧ b.2 ≠ [] := by
  intro b hb
  rw [Ts.extract_reexport_bindings, List.mem_flatMap] at hb
  obtain ⟨c, hc, hbc⟩ := hb
  by_cases h : c.kind = "export_clause".data
  · rw [if_pos h] at hbc
    rw [List.mem_flatMap] at hbc
    obtain ⟨spec, hspec, hbs⟩ := hbc
    by_cases h5 : spec.kind = "export_specifier".data
    · rw [if_pos h5] at hbs
      by_cases h6 : (Ts.extract_export_specifier spec).1 = []
      · rw [if_pos h6] at hbs
        simp at hbs
      · rw [if_neg h6] at hbs
        rw [List.mem_singleton] at hbs
        subst hbs
        refine ⟨h6, ?_⟩
        have hid : ∀ cc ∈ spec.children,
            (cc.kind = "identifier".data ∨ cc.kind = "type_identifier".data) →
            cc.text ≠ [] := by
          intro cc hcc hkk
          have hdepth : cc ∈ Ts.nodesToDepth 4 n :=
            nodesToDepth_child hc
              (nodesToDepth_child hspec
                (nodesToDepth_child hcc (nodesToDepth_self 1 cc)))
          exact identTextsOk_spec hok4 cc hdepth hkk
        exact extract_export_specifier_names hid _ _ rfl h6
    · rw [if_neg h5] at hbs
      simp at hbs
  · rw [if_neg h] at hbc
    simp at hbc

/-- C7: for every import row emitted by the C/C++, Rust and TS/JS
extractors, `imported_name` and `local_name` are nonempty — the `*`
sentinel covering namespace, wildcard and side-effect imports.  The C rows
carry this unconditionally; the Rust and TS rows under the decidable
well-formedness facts (`use_path_okB`, `matchNodesOkB`) that hold of every
real parse (identifier tokens are nonempty, `use` paths end in a name
character or `::*`). -/
theorem import_names_nonempty :
    (∀ (ms : List CLang.CIncludeMatch) (file : Str) (r : ImportInfo),
      r ∈ CLang.extract_imports ms file →
      r.imported_name ≠ [] ∧ r.local_name ≠ []) ∧
    (∀ (ms : List RustLang.RustUseMatch) (file : Str),
      (∀ m ∈ ms, RustLang.use_path_okB m.pathText = true) →
      ∀ r ∈ RustLang.extract_imports ms file,
        r.imported_name ≠ [] ∧ r.local_name ≠ []) ∧
    (∀ (ms : List Ts.ImportMatch) (file : Str),
      (∀ m ∈ ms, Ts.matchNodesOkB m = true) →
      ∀ r ∈ Ts.extract_imports ms file,
        r.imported_name ≠ [] ∧ r.local_name ≠ []) := by
  refine ⟨?_, ?_, ?_⟩
  · intro ms file r hr
    rw [CLang.extract_imports, List.mem_filterMap] at hr
    obtain ⟨m, _, hm⟩ := hr
    split at hm
    · exact absurd hm (by simp)
    · cases hm
      exact ⟨show ("*".data : Str) ≠ [] by decide, show ("*".data : Str) ≠ [] by decide⟩
  · intro ms file hms r hr
    rw [RustLang.extract_imports, List.mem_flatMap] at hr
    obtain ⟨m, hm, hrm⟩ := hr
    by_cases hp : m.pathText = []
    · rw [if_pos hp] at hrm
      simp at hrm
    · rw [if_neg hp] at hrm
      exact rust_use_names_nonempty m.pathText file m.line (hms m hm) r hrm
  · intro ms file hms r hr
    rw [Ts.extract_imports, List.mem_flatMap] at hr
    obtain ⟨m, hm, hrm⟩ := hr
    have hokm := hms m hm
    cases m with
    | staticImport n src =>
      simp only [] at hrm
      rw [Ts.matchNodesOkB] at hokm
      by_cases hspec : Ts.strip_quotes src = []
      · rw [if_pos hspec] at hrm
        simp at hrm
      · rw [if_neg hspec] at hrm
        by_cases hext : Ts.extract_import_bindings n = []
        · rw [if_pos hext, List.mem_singleton] at hrm
          subst hrm
          exact ⟨show ("*".data : Str) ≠ [] by decide, show ("*".data : Str) ≠ [] by decide⟩
        · rw [if_neg hext, List.mem_map] at hrm
          obtain ⟨b, hb, rfl⟩ := hrm
          exact extract_import_bindings_names hokm b hb
    | reexport n src =>
      simp only [] at hrm
      rw [Ts.matchNodesOkB] at hokm
      by_cases hspec : Ts.strip_quotes src = []
      · rw [if_pos hspec] at hrm
        simp at hrm
      · rw [if_neg hspec] at hrm
        by_cases hext : Ts.extract_reexport_bindings n = []
        · rw [if_pos hext, List.mem_singleton] at hrm
          subst hrm
          exact ⟨show ("*".data : Str) ≠ [] by decide, show ("*".data : Str) ≠ [] by decide⟩
        · rw [if_neg hext, List.mem_map] at hrm
          obtain ⟨b, hb, rfl⟩ := hrm
          exact extract_reexport_bindings_names hokm b hb
    | dynamicImport row src =>
      simp only [] at hrm
      by_cases hspec : Ts.strip_quotes src = []
      · rw [if_pos hspec] at hrm
        simp at hrm
      · rw [if_neg hspec, List.mem_singleton] at hrm
        subst hrm
        exact ⟨show ("*".data : Str) ≠ [] by decide, show ("*".data : Str) ≠ [] by decide⟩
    | call fn row src =>
      simp only [] at hrm
      by_cases hspec : Ts.strip_quotes src = []
      · rw [if_pos hspec] at hrm
        simp at hrm
      · rw [if_neg hspec] at hrm
        by_cases hfn : fn = "require".data
        · rw [if_pos hfn, List.mem_singleton] at hrm
          subst hrm
          exact ⟨show ("*".data : Str) ≠ [] by decide, show ("*".data : Str) ≠ [] by decide⟩
        · rw [if_neg hfn] at hrm
          simp at hrm

/-- Witness for C7: the Rust clause instantiated on
`use std::collections::HashMap;` and the TS clause on the `react`
scenario row. -/
theorem import_names_nonempty_witness :
    ((⟨"lib.rs".data, "std::collections::HashMap".data, "HashMap".data,
       "HashMap".data, "use".data, false, 0, true⟩ : ImportInfo).imported_name ≠ [] ∧
     (⟨"lib.rs".data, "std::collections::HashMap".data, "HashMap".data,
       "HashMap".data, "use".data, false, 0, true⟩ : ImportInfo).local_name ≠ []) ∧
    ((⟨"test.ts".data, "react".data, "default".data, "React".data, "static".data,
       false, 0, true⟩ : ImportInfo).imported_name ≠ [] ∧
     (⟨"test.ts".data, "react".data, "default".data, "React".data, "static".data,
       false, 0, true⟩ : ImportInfo).local_name ≠ []) :=
  ⟨import_names_nonempty.2.1 [⟨"std::collections::HashMap".data, 0⟩] "lib.rs".data
      (by decide) _ (by decide),
   import_names_nonempty.2.2 [.staticImport Ts.reactImportStatement "\"react\"".data]
      "test.ts".data (by decide) _ (by decide)⟩

/-- Witness for C2: `use std::collections::{HashMap, HashSet as HS};`
expands to two rows, the aliased one keeping ` as HS` inside its
specifier. -/
theorem rust_grouped_use_expansion_witness :
    RustLang.extract_use_imports
        ("std::collections::".data ++ '\x7b' ::
          ("HashMap, HashSet as HS".data ++ ['\x7d']))
        "lib.rs".data 2 =
      [⟨"lib.rs".data, "std::collections::HashMap".data, "HashMap".data,
        "HashMap".data, "use".data, false, 2, true⟩,
       ⟨"lib.rs".data, "std::collections::HashSet as HS".data, "HashSet".data,
        "HS".data, "use".data, false, 2, true⟩] :=
  (rust_grouped_use_expansion "std::collections::".data
    "HashMap, HashSet as HS".data "lib.rs".data 2 (by decide)).trans rfl

/-- Witness for C6: the angle-bracket direction instantiated on
`#include <stdio.h>`. -/
theorem c_include_external_iff_angle_witness :
    (({ source_file := "main.c".data, module_specifier := "stdio.h".data,
        imported_name := "*".data, local_name := "*".data, kind := "include".data,
        is_type_only := false, line := 0, is_external := true } : ImportInfo).is_external = true
      ↔ startsWithChar '<' "<stdio.h>".data = true) :=
  c_include_external_iff_angle.2.2 ⟨"system_lib_string".data, "<stdio.h>".data, 0⟩
    "main.c".data _ (by decide) (by decide)

end Virgil
